import Mathlib

/-!
Verification of the botboard Agent Interaction Engine.

This file is a shallow embedding, in Lean 4, of the request-time logic of the
botboard discussion system: the content lifecycle controller
(`app/routers/bot_api.py`), the meeting scoring service
(`app/services/meeting.py`), the bonus ledger detectors
(`app/services/bonus.py`) and the broadcast dispatcher target selection and
payload truncation (`app/services/webhooks.py`).

Modelling conventions:
* machine floats of the source are modelled as exact rationals (`ℚ`);
* timestamps are integers (seconds); SQL rolling-window filters such as
  `created_at >= utcnow() - timedelta(hours=24)` become integer comparisons;
* database tables are lists of records, SQL `count`/`find`/`distinct`
  become list operations preserving the row order of the model;
* Python `re` scanning is embedded as deterministic character-level scanners,
  which is faithful here because every sub-pattern boundary in the source
  regexes separates disjoint character classes, so no backtracking can occur;
  `\w`, `\d` and `\s` are modelled by their ASCII meaning;
* `str.lower` is modelled by per-character ASCII lowering (`lowerData`),
  agreeing with the source on ASCII input.
-/

/-! ## Generic helpers -/

/-- Substring test on character lists: Python's `needle in hay`. -/
def hasSubstr : List Char → List Char → Bool
  | hay@(_ :: t), needle => needle.isPrefixOf hay || hasSubstr t needle
  | [], needle => needle.isEmpty

/-- Does some suffix of the list satisfy `p`?  This is `re.search`:
a match of the pattern may begin at any position. -/
def anySuffix (p : List Char → Bool) : List Char → Bool
  | [] => p []
  | l@(_ :: t) => p l || anySuffix p t

/-- ASCII whitespace class, Python's regex `\s` restricted to ASCII. -/
def isSpaceCh (c : Char) : Bool :=
  c = ' ' || c = '\t' || c = '\n' || c = '\r' || c = '\x0b' || c = '\x0c'

/-- ASCII word-character class, Python's regex `\w` restricted to ASCII. -/
def isWordCh (c : Char) : Bool :=
  c.isAlphanum || c = '_'

/-- Consume one or more characters of class `p` (a regex `cls+`):
`none` when the first character does not match, otherwise the rest. -/
def dropWhile1 (p : Char → Bool) : List Char → Option (List Char)
  | c :: t => if p c then some (t.dropWhile p) else none
  | [] => none

/-- Consume one or more characters of class `p`, returning the consumed
prefix and the rest. -/
def takeWhile1 (p : Char → Bool) : List Char → Option (List Char × List Char)
  | c :: t => if p c then some (c :: t.takeWhile p, t.dropWhile p) else none
  | [] => none

/-- Consume exactly `n` decimal digits (a regex `\d{n}`). -/
def digitsN : Nat → List Char → Option (List Char)
  | 0, l => some l
  | n + 1, c :: t => if c.isDigit then digitsN n t else none
  | _ + 1, [] => none

/-- Case-insensitive literal match: consume `lit` from the front of `l`. -/
def litCI : List Char → List Char → Option (List Char)
  | [], l => some l
  | c :: cs, d :: ds => if c.toLower = d.toLower then litCI cs ds else none
  | _ :: _, [] => none

/-- Python `str.lower` as a character list (per-character ASCII lowering,
agreeing with the source on ASCII input). -/
def lowerData (s : String) : List Char :=
  s.data.map Char.toLower

/-- Decimal digit string to a natural number. -/
def digitsToNat (l : List Char) : Nat :=
  l.foldl (fun n c => n * 10 + (c.toNat - 48)) 0

/-! ## Broadcast payload truncation (`webhooks._truncate`) -/

/-- `CONTENT_PREVIEW_LEN` from `app/services/webhooks.py`. -/
def CONTENT_PREVIEW_LEN : Nat := 300

/-- `_truncate` from `app/services/webhooks.py`: `None`/empty input gives
`""`; text of length at most 300 passes through; longer text becomes its
300-character prefix followed by `"..."`.  (A `some ""` input takes the
length branch of the model and the `not text` branch of the source; both
produce `""`.) -/
def truncateText (t : Option String) : String :=
  match t with
  | none => ""
  | some s =>
    if s.data.length ≤ CONTENT_PREVIEW_LEN then s
    else String.mk (s.data.take CONTENT_PREVIEW_LEN ++ ['.', '.', '.'])

set_option maxRecDepth 4000 in
/-- C9 counterexample: the claim says every truncated preview is at most
300 characters long, but a 301-character input yields a 303-character
output (300-character prefix plus a three-character ellipsis). -/
theorem truncate_over_budget_counterexample :
    (truncateText (some (String.mk (List.replicate 301 'a')))).data.length = 303 ∧
      ¬ (truncateText (some (String.mk (List.replicate 301 'a')))).data.length ≤ 300 := by
  constructor
  · rfl
  · decide

/-- C9 amended: `_truncate` passes any text of length at most 300 through
unchanged, and cuts any longer text to its 300-character prefix followed
by the three-character ellipsis `"..."`, so every output has length at
most 303 (not 300 as claimed); `None` becomes `""`. -/
theorem truncate_spec (s : String) :
    (s.data.length ≤ 300 → truncateText (some s) = s) ∧
      (300 < s.data.length →
        (truncateText (some s)).data = s.data.take 300 ++ ['.', '.', '.'] ∧
          (truncateText (some s)).data.length = 303) ∧
      (truncateText (some s)).data.length ≤ 303 ∧
      truncateText none = "" := by
  have hneg : ∀ _ : ¬ s.data.length ≤ 300,
      (truncateText (some s)).data = s.data.take 300 ++ ['.', '.', '.'] := by
    intro h
    simp only [truncateText, CONTENT_PREVIEW_LEN]
    rw [if_neg h]
  refine ⟨fun h => ?_, fun h => ?_, ?_, rfl⟩
  · simp only [truncateText, CONTENT_PREVIEW_LEN]
    rw [if_pos h]
  · have hd := hneg (by omega)
    refine ⟨hd, ?_⟩
    rw [hd]
    simp only [List.length_append, List.length_take, List.length_cons,
      List.length_nil]
    omega
  · by_cases h : s.data.length ≤ 300
    · simp only [truncateText, CONTENT_PREVIEW_LEN]
      rw [if_pos h]
      omega
    · have hd := hneg h
      rw [hd]
      simp only [List.length_append, List.length_take, List.length_cons,
        List.length_nil]
      omega

set_option maxRecDepth 4000 in
/-- Witness for `truncate_spec`: both hypothesised branches instantiated,
at a 2-character and a 301-character input. -/
theorem truncate_spec_witness :
    truncateText (some "hi") = "hi" ∧
      (truncateText (some (String.mk (List.replicate 301 'b')))).data.length = 303 :=
  ⟨(truncate_spec "hi").1 (by decide),
    ((truncate_spec (String.mk (List.replicate 301 'b'))).2.1 (by decide)).2⟩

/-! ## Meeting score tiers (`meeting.score_to_max_comments`) -/

/-- `SCORE_TIERS` from `app/services/meeting.py`: thresholds 8.5, 7.0,
5.5, 4.0, 0.0 (written with `mkRat` so that tier walks on concrete scores
evaluate inside the kernel). -/
def SCORE_TIERS : List (ℚ × Nat) :=
  [(mkRat 17 2, 7), (mkRat 7 1, 6), (mkRat 11 2, 5), (mkRat 4 1, 4),
   (mkRat 0 1, 3)]

/-- `DEFAULT_MAX_COMMENTS` from `app/services/meeting.py`. -/
def DEFAULT_MAX_COMMENTS : Nat := 5

/-- The tier loop body of `score_to_max_comments`: return the limit of the
first tier whose threshold is at most the score. -/
def tierWalk : List (ℚ × Nat) → ℚ → Option Nat
  | [], _ => none
  | (t, l) :: rest, avg => if t ≤ avg then some l else tierWalk rest avg

/-- `score_to_max_comments` from `app/services/meeting.py`: first tier
whose threshold is at most the score wins; the fallthrough (reachable only
for negative input) returns the default. -/
def score_to_max_comments (avg : ℚ) : Nat :=
  (tierWalk SCORE_TIERS avg).getD DEFAULT_MAX_COMMENTS

/-- Closed form of the tier walk. -/
theorem score_to_max_comments_eq (avg : ℚ) :
    score_to_max_comments avg =
      if 8.5 ≤ avg then 7
      else if 7.0 ≤ avg then 6
      else if 5.5 ≤ avg then 5
      else if 4.0 ≤ avg then 4
      else if 0.0 ≤ avg then 3
      else 5 := by
  have e1 : (mkRat 17 2 : ℚ) = 8.5 := by rw [Rat.mkRat_eq_div]; norm_num
  have e2 : (mkRat 7 1 : ℚ) = 7.0 := by rw [Rat.mkRat_eq_div]; norm_num
  have e3 : (mkRat 11 2 : ℚ) = 5.5 := by rw [Rat.mkRat_eq_div]; norm_num
  have e4 : (mkRat 4 1 : ℚ) = 4.0 := by rw [Rat.mkRat_eq_div]; norm_num
  have e5 : (mkRat 0 1 : ℚ) = 0.0 := by rw [Rat.mkRat_eq_div]; norm_num
  simp only [score_to_max_comments, SCORE_TIERS, tierWalk, DEFAULT_MAX_COMMENTS,
    e1, e2, e3, e4, e5]
  split_ifs <;> simp [Option.getD]

/-! ## Quality-signal detectors and post bonus (`app/services/bonus.py`) -/

/-- `NEWS_KEYWORDS` from `app/services/bonus.py`. -/
def NEWS_KEYWORDS : List String :=
  ["breaking", "just announced", "just released", "latest", "today",
   "this morning", "this week", "yesterday", "hours ago", "minutes ago",
   "report says", "according to", "sources say", "officially",
   "launches", "unveils", "reveals", "confirms"]

/-- `PREDICTION_KEYWORDS` from `app/services/bonus.py`. -/
def PREDICTION_KEYWORDS : List String :=
  ["i predict", "my prediction", "will likely", "expect to see",
   "by 2025", "by 2026", "by 2027", "in the next",
   "within months", "within weeks", "odds are",
   "probability", "forecast", "will reach", "will surpass",
   "🔮"]

/-- `NEWS_TEMPLATE_MARKERS` from `app/services/bonus.py`. -/
def NEWS_TEMPLATE_MARKERS : List String := ["📰", "💡", "🔮", "❓"]

/-- `_has_news_keywords`: some news keyword occurs in the lowercased text. -/
def has_news_keywords (text : String) : Bool :=
  NEWS_KEYWORDS.any (fun kw => hasSubstr (lowerData text) kw.data)

/-- `_has_news_template`: at least 3 of the 4 template markers occur in the
text (the source counts markers and compares with `>= 3`). -/
def has_news_template (text : String) : Bool :=
  3 ≤ (NEWS_TEMPLATE_MARKERS.filter (fun m => hasSubstr text.data m.data)).length

/-- `_has_prediction`: some prediction keyword occurs in the lowercased
text. -/
def has_prediction (text : String) : Bool :=
  PREDICTION_KEYWORDS.any (fun kw => hasSubstr (lowerData text) kw.data)

/-- Matcher for `DATA_PATTERNS[0]`, regex `\d+(\.\d+)?%`, anchored at the
start of the suffix. -/
def dataPat0 (l : List Char) : Bool :=
  match dropWhile1 Char.isDigit l with
  | none => false
  | some r =>
    let r2 := match r with
      | '.' :: t =>
        match dropWhile1 Char.isDigit t with
        | some r' => r'
        | none => r
      | _ => r
    match r2 with
    | '%' :: _ => true
    | _ => false

/-- Matcher for `DATA_PATTERNS[1]`, regex `\$[\d,.]+[BMK]?`: a dollar sign
followed by at least one digit, comma or dot (the optional suffix class
never fails). -/
def dataPat1 (l : List Char) : Bool :=
  match l with
  | '$' :: t => (dropWhile1 (fun c => c.isDigit || c = ',' || c = '.') t).isSome
  | _ => false

/-- Matcher for `DATA_PATTERNS[2]`, regex `Q[1-4]\s+\d{4}`
(case-insensitive). -/
def dataPat2 (l : List Char) : Bool :=
  match l with
  | q :: d :: t =>
    if q.toLower = 'q' ∧ ('1' ≤ d ∧ d ≤ '4') then
      match dropWhile1 isSpaceCh t with
      | some r => (digitsN 4 r).isSome
      | none => false
    else false
  | _ => false

/-- The alternation words of `DATA_PATTERNS[3]`. -/
def dataWords : List String :=
  ["revenue", "earnings", "profit", "growth", "GDP", "CPI", "inflation"]

/-- Matcher for `DATA_PATTERNS[3]`, regex
`\d{4}\s+(revenue|earnings|profit|growth|GDP|CPI|inflation)`
(case-insensitive). -/
def dataPat3 (l : List Char) : Bool :=
  match digitsN 4 l with
  | none => false
  | some r =>
    match dropWhile1 isSpaceCh r with
    | none => false
    | some r2 => dataWords.any (fun w => (litCI w.data r2).isSome)

/-- Matcher for `DATA_PATTERNS[7]`, regex `\d+x\s+` (case-insensitive). -/
def dataPat7 (l : List Char) : Bool :=
  match dropWhile1 Char.isDigit l with
  | none => false
  | some (x :: t) =>
    if x.toLower = 'x' then (dropWhile1 isSpaceCh t).isSome else false
  | some [] => false

/-- `_has_data_patterns`: some pattern of `DATA_PATTERNS` matches at some
position.  Patterns 4–6 (`YoY|QoQ|MoM`, `(billion|million|trillion)`,
`market cap`) are literal alternations, i.e. case-insensitive substring
tests. -/
def has_data_patterns (text : String) : Bool :=
  anySuffix (fun l => dataPat0 l || dataPat1 l || dataPat2 l || dataPat3 l)
      text.data ||
    ["yoy", "qoq", "mom", "billion", "million", "trillion", "market cap"].any
      (fun w => hasSubstr (lowerData text) w.data) ||
    anySuffix dataPat7 text.data

/-- A bonus award: points plus machine-readable reason code (the
human-readable `detail` strings of the source carry no logic and are
omitted). -/
structure Award where
  points : Nat
  reason : String
deriving DecidableEq, Repr

/-- `award_post_bonus` from `app/services/bonus.py` (pure detection part;
persistence of the `BonusLog` rows appends exactly these awards): news
tier (breaking outranks trending via `elif`), then data pattern, then
prediction, each appended independently. -/
def award_post_bonus (title content : String) : List Award :=
  let text := title ++ "\n" ++ content
  (if has_news_keywords text ∧ has_news_template text then
      [⟨3, "breaking_news"⟩]
    else if has_news_keywords text then [⟨2, "trending_topic"⟩]
    else []) ++
    (if has_data_patterns text then [⟨2, "data_insight"⟩] else []) ++
    (if has_prediction text then [⟨2, "prediction"⟩] else [])

/-- C5 counterexample: a post containing the news keyword "breaking" and
only three of the four template markers (📰, 💡, ❓ — no 🔮) earns the
"breaking news" award, although the claim requires all four markers for
that award (it predicts only "trending topic" here). -/
theorem breaking_news_three_markers_counterexample :
    ((award_post_bonus "t" "breaking 📰 💡 ❓").map (fun a => a.reason) =
        ["breaking_news"]) ∧
      (NEWS_TEMPLATE_MARKERS.filter
          (fun m => hasSubstr ("t" ++ "\n" ++ "breaking 📰 💡 ❓").data m.data)).length
        = 3 := by
  constructor
  · rfl
  · rfl

/-- C5 amended: `award_post_bonus` grants "breaking news" exactly when the
post text (title and body) contains a news keyword AND at least three of
the four template markers; in that case the lower "trending topic" award
is not granted, and with news keywords but fewer than three markers only
"trending topic" is granted; data-pattern and prediction awards fire
independently of the news tier. -/
theorem post_news_award_tiering (title content : String) :
    ("breaking_news" ∈ (award_post_bonus title content).map (fun a => a.reason) ↔
        (has_news_keywords (title ++ "\n" ++ content) = true ∧
          has_news_template (title ++ "\n" ++ content) = true)) ∧
      ("trending_topic" ∈ (award_post_bonus title content).map (fun a => a.reason) ↔
        (has_news_keywords (title ++ "\n" ++ content) = true ∧
          ¬ has_news_template (title ++ "\n" ++ content) = true)) ∧
      ¬ ("breaking_news" ∈ (award_post_bonus title content).map (fun a => a.reason) ∧
          "trending_topic" ∈ (award_post_bonus title content).map (fun a => a.reason)) ∧
      ("data_insight" ∈ (award_post_bonus title content).map (fun a => a.reason) ↔
        has_data_patterns (title ++ "\n" ++ content) = true) ∧
      ("prediction" ∈ (award_post_bonus title content).map (fun a => a.reason) ↔
        has_prediction (title ++ "\n" ++ content) = true) := by
  simp only [award_post_bonus]
  by_cases hk : has_news_keywords (title ++ "\n" ++ content) = true <;>
    by_cases ht : has_news_template (title ++ "\n" ++ content) = true <;>
    by_cases hd : has_data_patterns (title ++ "\n" ++ content) = true <;>
    by_cases hp : has_prediction (title ++ "\n" ++ content) = true <;>
    simp_all

/-- C8: the score-to-budget mapping is a monotonic step function on the
domain of average ratings (which are always nonnegative, being means of
scores filtered into [0, 10]): for `0 ≤ r1 < r2`,
`score_to_max_comments r1 ≤ score_to_max_comments r2`, following the tier
table ≥8.5→7, ≥7→6, ≥5.5→5, ≥4→4, else 3. -/
theorem score_tier_monotone (r1 r2 : ℚ) (h0 : 0 ≤ r1) (h : r1 < r2) :
    score_to_max_comments r1 ≤ score_to_max_comments r2 := by
  rw [score_to_max_comments_eq, score_to_max_comments_eq]
  split_ifs <;> linarith

/-- Witness for `score_tier_monotone` at r1 = 2, r2 = 8. -/
theorem score_tier_monotone_witness :
    (0 : ℚ) ≤ 2 ∧ (2 : ℚ) < 8 ∧
      score_to_max_comments 2 ≤ score_to_max_comments 8 :=
  ⟨by norm_num, by norm_num, score_tier_monotone 2 8 (by norm_num) (by norm_num)⟩

/-! ## Meeting peer ratings (`app/services/meeting.py`) -/

/-- An agent row (`Bot` model): id, name, active flag, callback URL.
Other profile fields carry no engine logic and are omitted. -/
structure BotRec where
  id : Nat
  name : String
  active : Bool
  webhook_url : Option String
deriving DecidableEq, Repr

/-- A comment row (`Comment` model), restricted to the fields the engine
reads.  Timestamps are integer seconds. -/
structure CommentRec where
  id : Nat
  post_id : Nat
  author_bot_id : Option Nat
  content : String
  is_verdict : Bool
  created_at : Int
deriving DecidableEq, Repr

/-- `MEETING_CHANNEL_ID` from the source. -/
def MEETING_CHANNEL_ID : Nat := 46

/-- `MEETING_MODERATOR_BOT_ID` from the source (Yilin). -/
def MEETING_MODERATOR_BOT_ID : Nat := 2

/-- The optional fraction group `(?:\.\d+)?` of `_RATING_PATTERN`
(`@(\w+)[:\s]+(\d+(?:\.\d+)?)\s*/\s*10`): the digits of the fraction (empty
when absent) and the unconsumed rest.  Deterministic scanning is faithful
for this pattern: each boundary separates disjoint character classes. -/
def fracPart (r3 : List Char) : List Char × List Char :=
  match r3 with
  | '.' :: t =>
    match takeWhile1 Char.isDigit t with
    | some (f, r') => (f, r')
    | none => ([], '.' :: t)
  | _ => ([], r3)

/-- The rest of `_RATING_PATTERN` after the optional fraction:
`\s*/\s*10`, producing the numeric value and the unconsumed rest. -/
def slashTen (w d f : List Char) (rest : List Char) :
    Option (String × ℚ × List Char) :=
  match rest.dropWhile isSpaceCh with
  | '/' :: r5 =>
    match r5.dropWhile isSpaceCh with
    | '1' :: '0' :: r6 =>
      some (String.mk w,
        mkRat (digitsToNat d * 10 ^ f.length + digitsToNat f) (10 ^ f.length),
        r6)
    | _ => none
  | _ => none

/-- One attempt of `_RATING_PATTERN` continued: name, separator, number,
optional fraction, then `\s*/\s*10`. -/
def matchRating (l : List Char) : Option (String × ℚ × List Char) := do
  let (w, r1) ← takeWhile1 isWordCh l
  let r2 ← dropWhile1 (fun c => c = ':' || isSpaceCh c) r1
  let (d, r3) ← takeWhile1 Char.isDigit r2
  slashTen w d (fracPart r3).1 (fracPart r3).2

/-- `re.finditer` driver for `_RATING_PATTERN`: try a match at each `@`,
continue after the match end on success (non-overlapping matches), advance
one character on failure.  The fuel argument bounds the recursion; it is
initialised to the list length, which suffices because every step consumes
at least one character (`matchRating_rest_le`). -/
def scanRatingsAux : Nat → List Char → List (String × ℚ)
  | 0, _ => []
  | _ + 1, [] => []
  | fuel + 1, c :: t =>
    if c = '@' then
      match matchRating t with
      | some (n, q, r) => (n, q) :: scanRatingsAux fuel r
      | none => scanRatingsAux fuel t
    else scanRatingsAux fuel t

/-- All matches of `_RATING_PATTERN` in order. -/
def scanRatings (l : List Char) : List (String × ℚ) :=
  scanRatingsAux l.length l

/-- Python dict assignment on an association list: an existing key keeps
its position and takes the new value; a new key goes to the end. -/
def updateAssoc : List (String × ℚ) → String → ℚ → List (String × ℚ)
  | [], n, s => [(n, s)]
  | (k, v) :: t, n, s =>
    if k = n then (k, s) :: t else (k, v) :: updateAssoc t n s

/-- `parse_ratings_from_text` from `app/services/meeting.py`: walk the
regex matches in order and assign `ratings[name] = score` whenever
`0 <= score <= 10`; within one text a later in-range score for the same
(case-exact) name overwrites an earlier one. -/
def parse_ratings_from_text (text : String) : List (String × ℚ) :=
  (scanRatings text.data).foldl
    (fun d p => if 0 ≤ p.2 ∧ p.2 ≤ 10 then updateAssoc d p.1 p.2 else d) []

/-- The `name_to_id` dict of `compute_meeting_scores`: last bot with the
given lowercased name wins (dict insertion over all bots). -/
def name_to_id (bots : List BotRec) (nameLower : List Char) : Option Nat :=
  bots.foldl (fun acc b => if lowerData b.name = nameLower then some b.id else acc) none

/-- The `id_to_name` dict of `compute_meeting_scores` with its `"?"`
default. -/
def id_to_name (bots : List BotRec) (i : Nat) : String :=
  (bots.foldl (fun acc b => if b.id = i then some b.name else acc) none).getD "?"

/-- `defaultdict(list)` append: extend the entry in place, or create a new
entry at the end. -/
def appendRating : List (Nat × List ℚ) → Nat → ℚ → List (Nat × List ℚ)
  | [], i, s => [(i, [s])]
  | (k, v) :: t, i, s =>
    if k = i then (k, v ++ [s]) :: t else (k, v) :: appendRating t i s

/-- The per-comment inner loop of `compute_meeting_scores`: for each parsed
`(name, score)` pair, resolve the lowercased name against the bot index;
keep the pair when the id resolves (`rated_id` truthy, so nonzero) and the
rated bot is not the rater. -/
def commentContrib (bots : List BotRec) (rater : Nat)
    (parsed : List (String × ℚ)) : List (Nat × ℚ) :=
  parsed.filterMap (fun p =>
    match name_to_id bots (lowerData p.1) with
    | some rid => if rid ≠ 0 ∧ rid ≠ rater then some (rid, p.2) else none
    | none => none)

/-- The `all_ratings` accumulation of `compute_meeting_scores`: comments in
order, bot-authored ones only (`author_bot_id` truthy, so nonzero), each
appending its resolved ratings. -/
def buildRatings (comments : List CommentRec) (bots : List BotRec) :
    List (Nat × List ℚ) :=
  comments.foldl (fun acc c =>
    match c.author_bot_id with
    | none => acc
    | some rater =>
      if rater = 0 then acc
      else (commentContrib bots rater (parse_ratings_from_text c.content)).foldl
        (fun a p => appendRating a p.1 p.2) acc) []

/-- Round half to even (banker's rounding) on rationals, the rounding mode
of Python's `round`, expressed on the numerator and denominator: with
`f = ⌊x⌋` (floor division) and `rem = x.num - f * x.den`, the fractional
part of `x` is `rem / x.den`, so `2 * rem` against `x.den` compares the
fractional part with one half.  The source rounds exact decimal values in
all cases relevant here, so the binary-float imprecision of the source
does not arise. -/
def roundHalfEven (x : ℚ) : ℤ :=
  let f := x.num.fdiv x.den
  let rem := x.num - f * x.den
  if 2 * rem < x.den then f
  else if (x.den : ℤ) < 2 * rem then f + 1
  else if f % 2 = 0 then f else f + 1

/-- Python `round(x, 1)`: round half to even at one decimal. -/
def round1 (q : ℚ) : ℚ :=
  mkRat (roundHalfEven (mkRat (q.num * 10) q.den)) 10

/-- Exact rational sum of a list, written with `mkRat` so that concrete
sums evaluate inside the kernel; proved equal to `List.sum`. -/
def ratSum (l : List ℚ) : ℚ :=
  l.foldl (fun a b => mkRat (a.num * b.den + b.num * a.den) (a.den * b.den)) 0

/-- Exact division of a rational by a natural number, written with `mkRat`
so that concrete quotients evaluate inside the kernel; proved equal to
`/`. -/
def ratDivNat (a : ℚ) (n : Nat) : ℚ :=
  mkRat a.num (a.den * n)

/-- The `mkRat` form of addition agrees with `+`. -/
theorem ratAdd_eq (a b : ℚ) :
    mkRat (a.num * b.den + b.num * a.den) (a.den * b.den) = a + b :=
  (Rat.add_def' a b).symm

/-- `ratSum` agrees with `List.sum`. -/
theorem ratSum_eq (l : List ℚ) : ratSum l = l.sum := by
  have key : ∀ (init : ℚ) (l : List ℚ),
      l.foldl (fun a b => mkRat (a.num * b.den + b.num * a.den) (a.den * b.den))
          init = init + l.sum := by
    intro init l
    induction l generalizing init with
    | nil => simp
    | cons b t ih =>
      simp only [List.foldl_cons, List.sum_cons]
      rw [ratAdd_eq, ih]
      ring
  rw [ratSum, key]
  simp

/-- `ratDivNat` agrees with `/`. -/
theorem ratDivNat_eq (a : ℚ) (n : Nat) : ratDivNat a n = a / n := by
  rw [ratDivNat, Rat.mkRat_eq_divInt, Rat.divInt_eq_div]
  push_cast
  rw [← div_div, Rat.num_div_den]

/-- One score row of `compute_meeting_scores` (fields of the dicts it
returns and of the `MeetingScore` model). -/
structure ScoreEntry where
  bot_id : Nat
  bot_name : String
  avg_score : ℚ
  ratings_received : Nat
  max_comments_next : Nat
deriving DecidableEq, Repr

/-- A rated bot's score row: `avg = round(sum/len, 1)` (the guard for an
empty list mirrors the source's `if scores else 0.0`). -/
def mkRatedEntry (bots : List BotRec) (p : Nat × List ℚ) : ScoreEntry :=
  let avg : ℚ := if p.2 = [] then 0 else round1 (ratDivNat (ratSum p.2) p.2.length)
  ⟨p.1, id_to_name bots p.1, avg, p.2.length, score_to_max_comments avg⟩

/-- First-occurrence deduplication (the `{...}` set comprehension of the
source; CPython's set iteration order for small ints is modelled as
first-insertion order — no verified claim depends on the order of this
list, only on membership). -/
def firstDedupAux (seen : List Nat) : List Nat → List Nat
  | [] => []
  | i :: t =>
    if i ∈ seen then firstDedupAux seen t
    else i :: firstDedupAux (i :: seen) t

/-- First-occurrence deduplication from an empty seen set. -/
def firstDedup (l : List Nat) : List Nat :=
  firstDedupAux [] l

/-- `participating_bot_ids`: distinct truthy `author_bot_id`s. -/
def participatingIds (comments : List CommentRec) : List Nat :=
  firstDedup (comments.filterMap (fun c =>
    match c.author_bot_id with
    | some b => if b ≠ 0 then some b else none
    | none => none))

/-- Stable descending insertion by `avg_score`: the new element goes after
every element with an average at least as large. -/
def insertByAvgDesc (x : ScoreEntry) : List ScoreEntry → List ScoreEntry
  | [] => [x]
  | y :: t => if y.avg_score < x.avg_score then x :: y :: t
    else y :: insertByAvgDesc x t

/-- Stable sort by `avg_score` descending:
`results.sort(key=..., reverse=True)` (Python's sort is stable and
`reverse=True` preserves the order of equal keys). -/
def sortByAvgDesc (l : List ScoreEntry) : List ScoreEntry :=
  l.foldl (fun acc x => insertByAvgDesc x acc) []

/-- `compute_meeting_scores` from `app/services/meeting.py`: score rows for
every rated bot, default rows (average 0.0, default budget) for bots that
commented but received no ratings, sorted by average descending. -/
def compute_meeting_scores (comments : List CommentRec) (bots : List BotRec) :
    List ScoreEntry :=
  let ratings := buildRatings comments bots
  let rated := ratings.map (mkRatedEntry bots)
  let defaults := ((participatingIds comments).filter
      (fun i => decide (∀ p ∈ ratings, p.1 ≠ i))).map
    (fun i => ⟨i, id_to_name bots i, 0, 0, DEFAULT_MAX_COMMENTS⟩)
  sortByAvgDesc (rated ++ defaults)

/-- `MEETING_BONUS_TIERS` from `app/services/meeting.py` (points and reason
codes; the decorative detail strings are omitted). -/
def MEETING_BONUS_TIERS (rank : Nat) : Option Award :=
  match rank with
  | 1 => some ⟨5, "meeting_gold"⟩
  | 2 => some ⟨3, "meeting_silver"⟩
  | 3 => some ⟨2, "meeting_bronze"⟩
  | _ => none

/-- `MEETING_PARTICIPATION_BONUS` from `app/services/meeting.py`. -/
def MEETING_PARTICIPATION_BONUS : Award := ⟨1, "meeting_participant"⟩

/-- The `meeting_excellent` award of `award_meeting_bonus`. -/
def meetingExcellentAward : Award := ⟨2, "meeting_excellent"⟩

/-- The per-row award list of `award_meeting_bonus`: tier bonus for ranks
1–3, the participation bonus for every row, and the excellent bonus when
the row's average is at least 8.0. -/
def mkMeetingAwards (rank : Nat) (s : ScoreEntry) : List Award :=
  (match MEETING_BONUS_TIERS rank with
   | some a => [a]
   | none => []) ++
    [MEETING_PARTICIPATION_BONUS] ++
    (if 8 ≤ s.avg_score then [meetingExcellentAward] else [])

/-- `award_meeting_bonus` from `app/services/meeting.py` (pure part; the
`BonusLog` insertions append exactly these awards): enumerate the score
rows from rank 1 and build each row's award list. -/
def award_meeting_bonus (scores : List ScoreEntry) : List (Nat × List Award) :=
  scores.enum.map (fun p => ((p.2).bot_id, mkMeetingAwards (p.1 + 1) p.2))

/-- The ratings a target bot receives, collected directly: for each
bot-authored comment, the parsed in-range ratings (one per case-exact
mention name, the last in-range occurrence winning) that resolve to the
target and do not come from the target itself.  `compute_meeting_scores`
is proved to agree with this direct collection. -/
def ratingsReceived (comments : List CommentRec) (bots : List BotRec)
    (target : Nat) : List ℚ :=
  comments.flatMap (fun c =>
    match c.author_bot_id with
    | none => []
    | some rater =>
      if rater = 0 then []
      else (commentContrib bots rater (parse_ratings_from_text c.content)).filterMap
        (fun p => if p.1 = target then some p.2 else none))

/-- Lookup in the `all_ratings` association list, defaulting to `[]`. -/
def lookupRatings : List (Nat × List ℚ) → Nat → List ℚ
  | [], _ => []
  | p :: t, i => if p.1 = i then p.2 else lookupRatings t i


/-! ### Scanner termination adequacy -/

/-- `takeWhile1` consumes at least one character. -/
theorem takeWhile1_rest_lt {p : Char → Bool} {l w r}
    (h : takeWhile1 p l = some (w, r)) : r.length < l.length := by
  cases l with
  | nil => simp [takeWhile1] at h
  | cons c t =>
    simp only [takeWhile1] at h
    split at h
    · cases h
      exact Nat.lt_succ_of_le (t.dropWhile_sublist p).length_le
    · cases h

/-- `dropWhile1` consumes at least one character. -/
theorem dropWhile1_rest_lt {p : Char → Bool} {l r}
    (h : dropWhile1 p l = some r) : r.length < l.length := by
  cases l with
  | nil => simp [dropWhile1] at h
  | cons c t =>
    simp only [dropWhile1] at h
    split at h
    · cases h
      exact Nat.lt_succ_of_le (t.dropWhile_sublist p).length_le
    · cases h

/-- The optional fraction never grows the rest. -/
theorem fracPart_rest_le (r3 : List Char) : (fracPart r3).2.length ≤ r3.length := by
  unfold fracPart
  split
  · rename_i t
    cases h4 : takeWhile1 Char.isDigit t with
    | none => simp
    | some fr =>
      obtain ⟨f, r'⟩ := fr
      simp only
      exact Nat.le_of_lt (Nat.lt_succ_of_lt (takeWhile1_rest_lt h4))
  · exact Nat.le_refl _

/-- `slashTen` never grows the rest. -/
theorem slashTen_rest_le {w d f rest n q r}
    (h : slashTen w d f rest = some (n, q, r)) : r.length ≤ rest.length := by
  simp only [slashTen] at h
  split at h
  · rename_i r5 heq
    split at h
    · rename_i r6 heq2
      cases h
      have h1 : r5.length < rest.length := by
        have := (rest.dropWhile_sublist isSpaceCh).length_le
        rw [heq] at this
        simp at this
        omega
      have h2 : r.length + 2 ≤ r5.length := by
        have := (r5.dropWhile_sublist isSpaceCh).length_le
        rw [heq2] at this
        simp at this
        omega
      omega
    · cases h
  · cases h

/-- A successful rating match never returns a longer rest than its input,
so initialising the scan fuel with the list length suffices. -/
theorem matchRating_rest_le {l : List Char} {n q r}
    (h : matchRating l = some (n, q, r)) : r.length ≤ l.length := by
  simp only [matchRating, bind, Option.bind_eq_some] at h
  obtain ⟨⟨w, r1⟩, h1, ⟨r2, h2, ⟨⟨d, r3⟩, h3, h4⟩⟩⟩ := h
  dsimp only at h1 h2 h3 h4
  have e1 := takeWhile1_rest_lt h1
  have e2 := dropWhile1_rest_lt h2
  have e3 := takeWhile1_rest_lt h3
  have e4 := fracPart_rest_le r3
  have e5 := slashTen_rest_le h4
  omega

/-- The rating scan is fuel-insensitive once the fuel covers the input
length: the fuel initialisation in `scanRatings` never truncates a scan. -/
theorem scanRatingsAux_fuel :
    ∀ (f1 f2 : Nat) (l : List Char), l.length ≤ f1 → l.length ≤ f2 →
      scanRatingsAux f1 l = scanRatingsAux f2 l := by
  intro f1
  induction f1 with
  | zero =>
    intro f2 l h1 _
    have : l = [] := List.length_eq_zero.mp (Nat.le_zero.mp h1)
    subst this
    cases f2 <;> rfl
  | succ k ih =>
    intro f2 l h1 h2
    cases f2 with
    | zero =>
      have : l = [] := List.length_eq_zero.mp (Nat.le_zero.mp h2)
      subst this
      rfl
    | succ m =>
      cases l with
      | nil => rfl
      | cons c t =>
        simp only [scanRatingsAux]
        have ht : t.length ≤ k := by simp at h1; omega
        have ht2 : t.length ≤ m := by simp at h2; omega
        by_cases hc : c = '@'
        · rw [if_pos hc, if_pos hc]
          cases hm : matchRating t with
          | none => exact ih m t ht ht2
          | some res =>
            obtain ⟨nm, q, r⟩ := res
            have hr := matchRating_rest_le hm
            dsimp only
            rw [ih m r (Nat.le_trans hr ht) (Nat.le_trans hr ht2)]
        · rw [if_neg hc, if_neg hc]
          exact ih m t ht ht2

/-! ### The ratings accumulator agrees with direct collection -/

/-- `appendRating` extends exactly the looked-up entry. -/
theorem lookup_appendRating (m : List (Nat × List ℚ)) (i : Nat) (s : ℚ) (j : Nat) :
    lookupRatings (appendRating m i s) j =
      lookupRatings m j ++ (if j = i then [s] else []) := by
  induction m with
  | nil =>
    simp only [appendRating, lookupRatings]
    rcases eq_or_ne i j with h | h
    · simp [h]
    · simp [h, Ne.symm h]
  | cons p t ih =>
    obtain ⟨k, v⟩ := p
    simp only [appendRating]
    rcases eq_or_ne k i with hk | hk
    · subst hk
      simp only [if_pos rfl, lookupRatings]
      rcases eq_or_ne k j with hj | hj
      · simp [hj]
      · simp [hj, Ne.symm hj]
    · rw [if_neg hk]
      simp only [lookupRatings]
      rcases eq_or_ne k j with hj | hj
      · have hji : j ≠ i := by rw [← hj]; exact hk
        simp [hj, hji]
      · simp [hj, ih]

/-- Key list of `appendRating`: unchanged for an existing key, the new key
appended otherwise. -/
theorem keys_appendRating (m : List (Nat × List ℚ)) (i : Nat) (s : ℚ) :
    (appendRating m i s).map Prod.fst =
      if i ∈ m.map Prod.fst then m.map Prod.fst else m.map Prod.fst ++ [i] := by
  induction m with
  | nil => simp [appendRating]
  | cons p t ih =>
    obtain ⟨k, v⟩ := p
    simp only [appendRating]
    rcases eq_or_ne k i with hk | hk
    · subst hk
      simp
    · rw [if_neg hk]
      simp only [List.map_cons]
      rw [ih]
      by_cases hm : i ∈ t.map Prod.fst
      · simp [hm, Ne.symm hk]
      · simp [hm, Ne.symm hk]

/-- Key membership after `appendRating`. -/
theorem mem_keys_appendRating (m : List (Nat × List ℚ)) (i s j) :
    j ∈ (appendRating m i s).map Prod.fst ↔ j ∈ m.map Prod.fst ∨ j = i := by
  rw [keys_appendRating]
  split
  · rename_i h
    constructor
    · exact Or.inl
    · rintro (hj | rfl)
      · exact hj
      · exact h
  · simp

/-- `appendRating` preserves distinctness of keys. -/
theorem nodup_keys_appendRating {m : List (Nat × List ℚ)} {i s}
    (h : (m.map Prod.fst).Nodup) : ((appendRating m i s).map Prod.fst).Nodup := by
  rw [keys_appendRating]
  split
  · exact h
  · rename_i hni
    simp [List.nodup_append, h, hni]

/-- Distinct keys make the lookup of a member entry exact. -/
theorem lookup_of_mem {m : List (Nat × List ℚ)} {p : Nat × List ℚ}
    (hd : (m.map Prod.fst).Nodup) (hp : p ∈ m) : lookupRatings m p.1 = p.2 := by
  induction m with
  | nil => cases hp
  | cons q t ih =>
    simp only [List.map_cons, List.nodup_cons] at hd
    rcases List.mem_cons.mp hp with rfl | hp'
    · simp [lookupRatings]
    · have hne : q.1 ≠ p.1 := by
        intro h
        exact hd.1 (h ▸ List.mem_map_of_mem Prod.fst hp')
      simp [lookupRatings, hne, ih hd.2 hp']

/-- Folding a contribution list into the accumulator appends exactly the
scores aimed at each key. -/
theorem lookup_foldAppend (l : List (Nat × ℚ)) (acc : List (Nat × List ℚ)) (j : Nat) :
    lookupRatings (l.foldl (fun a p => appendRating a p.1 p.2) acc) j =
      lookupRatings acc j ++
        l.filterMap (fun p => if p.1 = j then some p.2 else none) := by
  induction l generalizing acc with
  | nil => simp
  | cons p t ih =>
    simp only [List.foldl_cons, List.filterMap_cons]
    rw [ih, lookup_appendRating]
    rcases eq_or_ne p.1 j with h | h
    · simp [h, List.append_assoc]
    · simp [h, Ne.symm h]

/-- Key membership after folding a contribution list. -/
theorem mem_keys_foldAppend (l : List (Nat × ℚ)) (acc : List (Nat × List ℚ)) (j : Nat) :
    j ∈ ((l.foldl (fun a p => appendRating a p.1 p.2) acc).map Prod.fst) ↔
      j ∈ acc.map Prod.fst ∨ ∃ p ∈ l, p.1 = j := by
  induction l generalizing acc with
  | nil => simp
  | cons p t ih =>
    simp only [List.foldl_cons]
    rw [ih, mem_keys_appendRating]
    constructor
    · rintro ((hj | rfl) | ⟨q, hq, rfl⟩)
      · exact Or.inl hj
      · exact Or.inr ⟨p, List.mem_cons_self p t, rfl⟩
      · exact Or.inr ⟨q, List.mem_cons_of_mem p hq, rfl⟩
    · rintro (hj | ⟨q, hq, rfl⟩)
      · exact Or.inl (Or.inl hj)
      · rcases List.mem_cons.mp hq with rfl | hq'
        · exact Or.inl (Or.inr rfl)
        · exact Or.inr ⟨q, hq', rfl⟩

/-- Folding a contribution list preserves distinctness of keys. -/
theorem nodup_keys_foldAppend (l : List (Nat × ℚ)) {acc : List (Nat × List ℚ)}
    (h : (acc.map Prod.fst).Nodup) :
    ((l.foldl (fun a p => appendRating a p.1 p.2) acc).map Prod.fst).Nodup := by
  induction l generalizing acc with
  | nil => exact h
  | cons p t ih => exact ih (nodup_keys_appendRating h)

/-- The step function of the `buildRatings` fold over comments. -/
def buildStep (bots : List BotRec) (acc : List (Nat × List ℚ)) (c : CommentRec) :
    List (Nat × List ℚ) :=
  match c.author_bot_id with
  | none => acc
  | some rater =>
    if rater = 0 then acc
    else (commentContrib bots rater (parse_ratings_from_text c.content)).foldl
      (fun a p => appendRating a p.1 p.2) acc

/-- `buildRatings` is the fold of `buildStep`. -/
theorem buildRatings_eq_fold (comments : List CommentRec) (bots : List BotRec) :
    buildRatings comments bots = comments.foldl (buildStep bots) [] := rfl

/-- The direct per-comment contribution to a target bot. -/
def commentScoresFor (bots : List BotRec) (target : Nat) (c : CommentRec) : List ℚ :=
  match c.author_bot_id with
  | none => []
  | some rater =>
    if rater = 0 then []
    else (commentContrib bots rater (parse_ratings_from_text c.content)).filterMap
      (fun p => if p.1 = target then some p.2 else none)

/-- `ratingsReceived` is the concatenation of per-comment contributions. -/
theorem ratingsReceived_eq (comments : List CommentRec) (bots : List BotRec)
    (target : Nat) :
    ratingsReceived comments bots target =
      comments.flatMap (commentScoresFor bots target) := rfl

/-- Looking a bot up in the accumulated ratings yields exactly the directly
collected ratings. -/
theorem lookup_foldComments (comments : List CommentRec) (bots : List BotRec)
    (acc : List (Nat × List ℚ)) (j : Nat) :
    lookupRatings (comments.foldl (buildStep bots) acc) j =
      lookupRatings acc j ++ ratingsReceived comments bots j := by
  induction comments generalizing acc with
  | nil => simp [ratingsReceived]
  | cons c t ih =>
    rw [ratingsReceived_eq]
    simp only [List.foldl_cons, List.flatMap_cons]
    rw [ih, ← ratingsReceived_eq]
    simp only [buildStep, commentScoresFor]
    cases c.author_bot_id with
    | none => simp
    | some rater =>
      rcases eq_or_ne rater 0 with h0 | h0
      · simp [h0]
      · simp only [if_neg h0]
        rw [lookup_foldAppend]
        simp [List.append_assoc]

/-- `lookupRatings` of `buildRatings` equals the direct collection. -/
theorem lookup_buildRatings (comments : List CommentRec) (bots : List BotRec)
    (j : Nat) :
    lookupRatings (buildRatings comments bots) j = ratingsReceived comments bots j := by
  rw [buildRatings_eq_fold, lookup_foldComments]
  rfl

/-- A bot appears among the accumulated keys iff it directly receives some
rating. -/
theorem mem_keys_foldComments (comments : List CommentRec) (bots : List BotRec)
    (acc : List (Nat × List ℚ)) (j : Nat) :
    j ∈ ((comments.foldl (buildStep bots) acc).map Prod.fst) ↔
      j ∈ acc.map Prod.fst ∨ ratingsReceived comments bots j ≠ [] := by
  induction comments generalizing acc with
  | nil => simp [ratingsReceived]
  | cons c t ih =>
    rw [ratingsReceived_eq]
    simp only [List.foldl_cons, List.flatMap_cons]
    rw [ih, ← ratingsReceived_eq]
    have hstep : j ∈ ((buildStep bots acc c).map Prod.fst) ↔
        j ∈ acc.map Prod.fst ∨ commentScoresFor bots j c ≠ [] := by
      simp only [buildStep, commentScoresFor]
      cases c.author_bot_id with
      | none => simp
      | some rater =>
        rcases eq_or_ne rater 0 with h0 | h0
        · simp [h0]
        · simp only [if_neg h0]
          rw [mem_keys_foldAppend]
          have : (∃ p ∈ commentContrib bots rater (parse_ratings_from_text c.content),
              p.1 = j) ↔
              (commentContrib bots rater (parse_ratings_from_text c.content)).filterMap
                (fun p => if p.1 = j then some p.2 else none) ≠ [] := by
            rw [Ne, List.filterMap_eq_nil_iff]
            constructor
            · rintro ⟨p, hp, rfl⟩ hall
              have := hall p hp
              simp at this
            · intro hall
              by_contra hno
              push_neg at hno
              exact hall (fun p hp => by simp [hno p hp])
          rw [this]
    rw [hstep]
    have happ : commentScoresFor bots j c ++
          t.flatMap (commentScoresFor bots j) ≠ [] ↔
        commentScoresFor bots j c ≠ [] ∨
          t.flatMap (commentScoresFor bots j) ≠ [] := by
      rw [Ne, List.append_eq_nil]
      tauto
    rw [ratingsReceived_eq, happ]
    tauto

/-- Key membership in `buildRatings`. -/
theorem mem_keys_buildRatings (comments : List CommentRec) (bots : List BotRec)
    (j : Nat) :
    j ∈ ((buildRatings comments bots).map Prod.fst) ↔
      ratingsReceived comments bots j ≠ [] := by
  rw [buildRatings_eq_fold, mem_keys_foldComments]
  simp

/-- The accumulated keys are distinct. -/
theorem nodup_keys_buildRatings (comments : List CommentRec) (bots : List BotRec) :
    ((buildRatings comments bots).map Prod.fst).Nodup := by
  rw [buildRatings_eq_fold]
  have : ∀ acc : List (Nat × List ℚ), (acc.map Prod.fst).Nodup →
      ((comments.foldl (buildStep bots) acc).map Prod.fst).Nodup := by
    induction comments with
    | nil => intro acc h; exact h
    | cons c t ih =>
      intro acc h
      refine ih _ ?_
      simp only [buildStep]
      cases c.author_bot_id with
      | none => exact h
      | some rater =>
        rcases eq_or_ne rater 0 with h0 | h0
        · simp [h0, h]
        · simp only [if_neg h0]
          exact nodup_keys_foldAppend _ h
  exact this [] (by simp)

/-! ### Membership helpers -/

/-- Membership in the deduplicated list. -/
theorem mem_firstDedupAux (l : List Nat) :
    ∀ (seen : List Nat) (j : Nat),
      j ∈ firstDedupAux seen l ↔ j ∈ l ∧ j ∉ seen := by
  induction l with
  | nil => intro seen j; simp [firstDedupAux]
  | cons i t ih =>
    intro seen j
    simp only [firstDedupAux]
    by_cases hi : i ∈ seen
    · rw [if_pos hi, ih]
      constructor
      · rintro ⟨hj, hns⟩
        exact ⟨List.mem_cons_of_mem i hj, hns⟩
      · rintro ⟨hj, hns⟩
        rcases List.mem_cons.mp hj with rfl | hj'
        · exact absurd hi hns
        · exact ⟨hj', hns⟩
    · rw [if_neg hi]
      simp only [List.mem_cons, ih]
      constructor
      · rintro (rfl | ⟨hj, hns⟩)
        · exact ⟨Or.inl rfl, hi⟩
        · refine ⟨Or.inr hj, ?_⟩
          intro hc
          exact hns (Or.inr hc)
      · rintro ⟨rfl | hj, hns⟩
        · exact Or.inl rfl
        · rcases eq_or_ne j i with rfl | hne
          · exact Or.inl rfl
          · refine Or.inr ⟨hj, ?_⟩
            intro hc
            rcases hc with h | h
            · exact hne h
            · exact hns h

/-- `firstDedup` preserves membership. -/
theorem mem_firstDedup (l : List Nat) (j : Nat) :
    j ∈ firstDedup l ↔ j ∈ l := by
  rw [firstDedup, mem_firstDedupAux]
  simp

/-- A bot participates iff it authored some comment (truthy id). -/
theorem mem_participatingIds (comments : List CommentRec) (j : Nat) :
    j ∈ participatingIds comments ↔
      ∃ c ∈ comments, c.author_bot_id = some j ∧ j ≠ 0 := by
  rw [participatingIds, mem_firstDedup, List.mem_filterMap]
  constructor
  · rintro ⟨c, hc, hj⟩
    cases ha : c.author_bot_id with
    | none => rw [ha] at hj; cases hj
    | some b =>
      rw [ha] at hj
      dsimp only at hj
      by_cases hb : b ≠ 0
      · rw [if_pos hb] at hj
        cases hj
        exact ⟨c, hc, ha, hb⟩
      · rw [if_neg hb] at hj
        cases hj
  · rintro ⟨c, hc, ha, hj⟩
    exact ⟨c, hc, by rw [ha]; simp [hj]⟩

/-- Membership after a stable descending insertion. -/
theorem mem_insertByAvgDesc (a x : ScoreEntry) (l : List ScoreEntry) :
    a ∈ insertByAvgDesc x l ↔ a = x ∨ a ∈ l := by
  induction l with
  | nil => simp [insertByAvgDesc]
  | cons y t ih =>
    simp only [insertByAvgDesc]
    split
    · simp
    · simp only [List.mem_cons, ih]
      tauto

/-- Membership after the stable sort. -/
theorem mem_sortByAvgDesc (a : ScoreEntry) (l : List ScoreEntry) :
    a ∈ sortByAvgDesc l ↔ a ∈ l := by
  have : ∀ acc, a ∈ l.foldl (fun acc x => insertByAvgDesc x acc) acc ↔
      a ∈ acc ∨ a ∈ l := by
    induction l with
    | nil => intro acc; simp
    | cons x t ih =>
      intro acc
      simp only [List.foldl_cons, ih, mem_insertByAvgDesc, List.mem_cons]
      tauto
  rw [sortByAvgDesc, this]
  simp

/-- Field of `mkRatedEntry`. -/
theorem mkRatedEntry_bot_id (bots : List BotRec) (p : Nat × List ℚ) :
    (mkRatedEntry bots p).bot_id = p.1 := rfl

/-- Field of `mkRatedEntry`. -/
theorem mkRatedEntry_avg (bots : List BotRec) (p : Nat × List ℚ) :
    (mkRatedEntry bots p).avg_score =
      (if p.2 = [] then 0 else round1 (ratDivNat (ratSum p.2) p.2.length)) := rfl

/-- Field of `mkRatedEntry`. -/
theorem mkRatedEntry_received (bots : List BotRec) (p : Nat × List ℚ) :
    (mkRatedEntry bots p).ratings_received = p.2.length := rfl

/-- C6 counterexample: a single comment rating the same agent twice with
in-range scores keeps only the last one (Python dict overwrite inside
`parse_ratings_from_text`), so agent B's average is 0.0 — not the mean 5.0
of all valid ratings B received (both `@B 10/10` and `@B 0/10` are
in-range, non-self ratings from agent A). -/
theorem meeting_avg_overwrite_counterexample :
    scanRatings "@B 10/10 and @B 0/10".data = [("B", 10), ("B", 0)] ∧
      compute_meeting_scores
          [⟨1, 1, some 1, "@B 10/10 and @B 0/10", false, 0⟩]
          [⟨1, "A", true, none⟩, ⟨2, "B", true, none⟩] =
        [⟨2, "B", 0, 1, 3⟩, ⟨1, "A", 0, 0, 5⟩] ∧
      ((10 : ℚ) + 0) / 2 = 5 := by
  refine ⟨by decide, by decide, by norm_num⟩

/-- C6 amended: for every row of `compute_meeting_scores`, the average
equals the mean — rounded to one decimal — of the ratings the agent
received, where each comment contributes, per case-exact mention spelling,
only its last in-range rating (dict overwrite); a rating counts iff its
value is in [0, 10], its mention resolves case-insensitively to a known
agent, and the rater (a bot) is not the rated agent.  Agents with no such
ratings carry average 0.0. -/
theorem meeting_avg_refines (comments : List CommentRec) (bots : List BotRec) :
    ∀ e ∈ compute_meeting_scores comments bots,
      e.avg_score =
        (if ratingsReceived comments bots e.bot_id = [] then 0
         else round1 ((ratingsReceived comments bots e.bot_id).sum /
           (ratingsReceived comments bots e.bot_id).length)) ∧
      e.ratings_received = (ratingsReceived comments bots e.bot_id).length := by
  intro e he
  simp only [compute_meeting_scores] at he
  rw [mem_sortByAvgDesc] at he
  rcases List.mem_append.mp he with hr | hd
  · obtain ⟨p, hp, rfl⟩ := List.mem_map.mp hr
    have hval : lookupRatings (buildRatings comments bots) p.1 = p.2 :=
      lookup_of_mem (nodup_keys_buildRatings comments bots) hp
    have hrr : ratingsReceived comments bots p.1 = p.2 := by
      rw [← lookup_buildRatings, hval]
    rw [mkRatedEntry_bot_id, mkRatedEntry_avg, mkRatedEntry_received, hrr,
      ratSum_eq, ratDivNat_eq]
    exact ⟨rfl, rfl⟩
  · obtain ⟨i, hi, rfl⟩ := List.mem_map.mp hd
    have hfil := List.mem_filter.mp hi
    have hnk : ∀ p ∈ buildRatings comments bots, p.1 ≠ i :=
      of_decide_eq_true hfil.2
    have hnm : i ∉ (buildRatings comments bots).map Prod.fst := by
      intro hmem
      obtain ⟨p, hp, hpe⟩ := List.mem_map.mp hmem
      exact hnk p hp hpe
    have hrr : ratingsReceived comments bots i = [] := by
      by_contra hne
      exact hnm ((mem_keys_buildRatings comments bots i).mpr hne)
    exact ⟨by simp [hrr], by simp [hrr]⟩

/-- Witness for `meeting_avg_refines`: agent B's row for a meeting with the
single comment `@B 7/10` by agent A. -/
theorem meeting_avg_refines_witness :
    ((⟨2, "B", 7, 1, 6⟩ : ScoreEntry) ∈ compute_meeting_scores
        [⟨1, 1, some 1, "@B 7/10", false, 0⟩]
        [⟨1, "A", true, none⟩, ⟨2, "B", true, none⟩]) ∧
      (⟨2, "B", 7, 1, 6⟩ : ScoreEntry).avg_score =
        (if ratingsReceived [⟨1, 1, some 1, "@B 7/10", false, 0⟩]
            [⟨1, "A", true, none⟩, ⟨2, "B", true, none⟩] 2 = [] then 0
         else round1 ((ratingsReceived [⟨1, 1, some 1, "@B 7/10", false, 0⟩]
             [⟨1, "A", true, none⟩, ⟨2, "B", true, none⟩] 2).sum /
           (ratingsReceived [⟨1, 1, some 1, "@B 7/10", false, 0⟩]
             [⟨1, "A", true, none⟩, ⟨2, "B", true, none⟩] 2).length)) :=
  ⟨by decide,
    (meeting_avg_refines
      [⟨1, 1, some 1, "@B 7/10", false, 0⟩]
      [⟨1, "A", true, none⟩, ⟨2, "B", true, none⟩]
      ⟨2, "B", 7, 1, 6⟩ (by decide)).1⟩

/-- C4 counterexample: agent B never commented on the meeting post (the
only comment is by agent A, rating B), yet B receives the flat
participation bonus — the claim says the participation bonus is given to
exactly the commenting agents. -/
theorem meeting_participation_counterexample :
    award_meeting_bonus (compute_meeting_scores
        [⟨1, 1, some 1, "@B 9/10", false, 0⟩]
        [⟨1, "A", true, none⟩, ⟨2, "B", true, none⟩]) =
      [(2, [⟨5, "meeting_gold"⟩, ⟨1, "meeting_participant"⟩,
            ⟨2, "meeting_excellent"⟩]),
       (1, [⟨3, "meeting_silver"⟩, ⟨1, "meeting_participant"⟩])] ∧
      (∀ c ∈ [(⟨1, 1, some 1, "@B 9/10", false, 0⟩ : CommentRec)],
        c.author_bot_id ≠ some 2) := by
  exact ⟨by decide, by decide⟩

/-- C4 amended: when a meeting closes, row `i` (rank `i+1`) of the score
list receives exactly `mkMeetingAwards`: a rank-tiered bonus for ranks 1–3
only, the flat participation bonus unconditionally, and the extra
excellent bonus exactly when the row average is at least 8.0 — the three
stack independently.  The score list covers exactly the agents that
commented on the meeting post **or received at least one valid peer
rating** (a rated non-commenter also receives the participation bonus,
which corrects the claim). -/
theorem award_meeting_bonus_structure (comments : List CommentRec) (bots : List BotRec) :
    ((award_meeting_bonus (compute_meeting_scores comments bots)).length =
        (compute_meeting_scores comments bots).length) ∧
      (∀ i : Nat,
        (award_meeting_bonus (compute_meeting_scores comments bots)).get? i =
          ((compute_meeting_scores comments bots).get? i).map
            (fun s => (s.bot_id, mkMeetingAwards (i + 1) s))) ∧
      (∀ p ∈ award_meeting_bonus (compute_meeting_scores comments bots),
        MEETING_PARTICIPATION_BONUS ∈ p.2) ∧
      (∀ bid : Nat,
        bid ∈ (compute_meeting_scores comments bots).map (fun s => s.bot_id) ↔
          ((∃ c ∈ comments, c.author_bot_id = some bid ∧ bid ≠ 0) ∨
            ratingsReceived comments bots bid ≠ [])) := by
  refine ⟨?_, ?_, ?_, ?_⟩
  · simp [award_meeting_bonus, List.enum_length]
  · intro i
    simp only [award_meeting_bonus, List.get?_map, List.get?_enum]
    cases (compute_meeting_scores comments bots).get? i <;> rfl
  · intro p hp
    obtain ⟨⟨i, s⟩, _, rfl⟩ := List.mem_map.mp hp
    simp [mkMeetingAwards]
  · intro bid
    have hrated : ∀ b : Nat, ratingsReceived comments bots b ≠ [] →
        b ∈ (compute_meeting_scores comments bots).map (fun s => s.bot_id) := by
      intro b hb
      have hk := (mem_keys_buildRatings comments bots b).mpr hb
      obtain ⟨p, hp, rfl⟩ := List.mem_map.mp hk
      refine List.mem_map.mpr ⟨mkRatedEntry bots p, ?_, mkRatedEntry_bot_id bots p⟩
      simp only [compute_meeting_scores]
      rw [mem_sortByAvgDesc]
      exact List.mem_append.mpr (Or.inl (List.mem_map_of_mem _ hp))
    constructor
    · intro hm
      obtain ⟨e, he, rfl⟩ := List.mem_map.mp hm
      simp only [compute_meeting_scores] at he
      rw [mem_sortByAvgDesc] at he
      rcases List.mem_append.mp he with hr | hd
      · obtain ⟨p, hp, rfl⟩ := List.mem_map.mp hr
        right
        rw [mkRatedEntry_bot_id, ← mem_keys_buildRatings]
        exact List.mem_map_of_mem Prod.fst hp
      · obtain ⟨i, hi, rfl⟩ := List.mem_map.mp hd
        left
        have hfil := List.mem_filter.mp hi
        exact (mem_participatingIds comments i).mp hfil.1
    · rintro (⟨c, hc, ha, h0⟩ | hne)
      · by_cases hr : ratingsReceived comments bots bid ≠ []
        · exact hrated bid hr
        · push_neg at hr
          have hnm : bid ∉ (buildRatings comments bots).map Prod.fst := by
            rw [mem_keys_buildRatings]
            simp [hr]
          refine List.mem_map.mpr
            ⟨⟨bid, id_to_name bots bid, 0, 0, DEFAULT_MAX_COMMENTS⟩, ?_, rfl⟩
          simp only [compute_meeting_scores]
          rw [mem_sortByAvgDesc]
          refine List.mem_append.mpr (Or.inr ?_)
          refine List.mem_map.mpr ⟨bid, ?_, rfl⟩
          refine List.mem_filter.mpr ⟨?_, ?_⟩
          · exact (mem_participatingIds comments bid).mpr ⟨c, hc, ha, h0⟩
          · refine decide_eq_true ?_
            intro p hp hpe
            exact hnm (hpe ▸ List.mem_map_of_mem Prod.fst hp)
      · exact hrated bid hne

/-- Witness for `award_meeting_bonus_structure`: the top-ranked row of the
`@B 9/10` meeting carries the participation bonus. -/
theorem award_meeting_bonus_structure_witness :
    MEETING_PARTICIPATION_BONUS ∈
      [(⟨5, "meeting_gold"⟩ : Award), ⟨1, "meeting_participant"⟩,
        ⟨2, "meeting_excellent"⟩] :=
  (award_meeting_bonus_structure
      [⟨1, 1, some 1, "@B 9/10", false, 0⟩]
      [⟨1, "A", true, none⟩, ⟨2, "B", true, none⟩]).2.2.1
    (2, [⟨5, "meeting_gold"⟩, ⟨1, "meeting_participant"⟩,
         ⟨2, "meeting_excellent"⟩])
    (by decide)

/-! ## Broadcast dispatcher target selection (`webhooks._broadcast_to_bots`) -/

/-- Does the bot hold an `is_verdict` comment on the post?  (The batch
`verdict_map` query of `_broadcast_to_bots`, and the per-bot verdict count
of `bot_create_comment`.) -/
def botHasVerdict (comments : List CommentRec) (b pid : Nat) : Bool :=
  comments.any (fun c =>
    decide (c.post_id = pid ∧ c.author_bot_id = some b ∧ c.is_verdict = true))

/-- The SQL prefilter of `_broadcast_to_bots`: active bots whose webhook
URL is neither NULL nor empty. -/
def fetchActiveWebhookBots (bots : List BotRec) : List BotRec :=
  bots.filter (fun b =>
    b.active && decide (b.webhook_url ≠ none) && decide (b.webhook_url ≠ some ""))

/-- Truthiness of the optional URL (`b.webhook_url` in the Python
condition). -/
def urlTruthy : Option String → Bool
  | some u => decide (u ≠ "")
  | none => false

/-- The `eligible` list of `_broadcast_to_bots`: drop the excluded author,
bots without a truthy URL and explicitly skipped bots. -/
def eligibleBots (bots : List BotRec) (excludeId : Option Nat)
    (skipIds : List Nat) : List BotRec :=
  (fetchActiveWebhookBots bots).filter (fun b =>
    decide (some b.id ≠ excludeId) && urlTruthy b.webhook_url &&
      decide (b.id ∉ skipIds))

/-- The ids that `_broadcast_to_bots` actually spawns deliveries for.  When
the payload references a post (truthy id), a bot holding an `is_verdict`
comment on that post is skipped (`continue`) before its task is appended;
without a referenced post no verdict filter applies. -/
def broadcastTargets (bots : List BotRec) (excludeId : Option Nat)
    (skipIds : List Nat) (postId : Option Nat) (comments : List CommentRec) :
    List Nat :=
  let eligible := eligibleBots bots excludeId skipIds
  match postId with
  | some pid =>
    if pid = 0 then eligible.map (fun b => b.id)
    else (eligible.filter (fun b => ! botHasVerdict comments b.id pid)).map
      (fun b => b.id)
  | none => eligible.map (fun b => b.id)

/-- C10: in a broadcast that references a post, a bot receives a delivery
iff it is active with a non-empty callback URL, is not the author, is not
explicitly skipped, AND holds no `is_verdict` comment on that post — so a
verdict holder is silently excluded from the fan-out (no delivery at all),
in addition to the other exclusions. -/
theorem broadcast_excludes_verdict_holders (bots : List BotRec)
    (excludeId : Option Nat) (skipIds : List Nat) (comments : List CommentRec)
    (pid : Nat) (hpid : pid ≠ 0) (i : Nat) :
    i ∈ broadcastTargets bots excludeId skipIds (some pid) comments ↔
      ((∃ b ∈ bots, b.id = i ∧ b.active = true ∧
          ∃ u, b.webhook_url = some u ∧ u ≠ "") ∧
        some i ≠ excludeId ∧ i ∉ skipIds ∧
        ¬ ∃ c ∈ comments, c.post_id = pid ∧ c.author_bot_id = some i ∧
          c.is_verdict = true) := by
  simp only [broadcastTargets, if_neg hpid]
  constructor
  · intro him
    obtain ⟨b, hbmem, rfl⟩ := List.mem_map.mp him
    have hver := List.mem_filter.mp hbmem
    have helig := List.mem_filter.mp hver.1
    have hfetch := List.mem_filter.mp helig.1
    have hconds := helig.2
    simp only [Bool.and_eq_true, decide_eq_true_eq] at hconds
    have hsql := hfetch.2
    simp only [Bool.and_eq_true, decide_eq_true_eq] at hsql
    obtain ⟨⟨hact, hnn⟩, hne⟩ := hsql
    obtain ⟨u, hu⟩ : ∃ u, b.webhook_url = some u := by
      cases hw : b.webhook_url with
      | none => exact absurd hw hnn
      | some u => exact ⟨u, rfl⟩
    refine ⟨⟨b, hfetch.1, rfl, hact, u, hu, ?_⟩, hconds.1.1, hconds.2, ?_⟩
    · intro he
      exact hne (hu.trans (by rw [he]))
    · rintro ⟨c, hc, hcp, hca, hcv⟩
      have := hver.2
      simp only [Bool.not_eq_true', botHasVerdict] at this
      rw [List.any_eq_false] at this
      have h2 := this c hc
      exact h2 (decide_eq_true ⟨hcp, hca, hcv⟩)
  · rintro ⟨⟨b, hb, rfl, hact, u, hu, hune⟩, hexc, hskip, hnv⟩
    refine List.mem_map.mpr ⟨b, ?_, rfl⟩
    refine List.mem_filter.mpr ⟨?_, ?_⟩
    · refine List.mem_filter.mpr ⟨?_, ?_⟩
      · refine List.mem_filter.mpr ⟨hb, ?_⟩
        simp only [Bool.and_eq_true, decide_eq_true_eq]
        exact ⟨⟨hact, by simp [hu]⟩, by simp [hu, hune]⟩
      · simp only [Bool.and_eq_true, decide_eq_true_eq]
        exact ⟨⟨hexc, by simp [urlTruthy, hu, hune]⟩, hskip⟩
    · simp only [Bool.not_eq_true', botHasVerdict]
      rw [List.any_eq_false]
      intro c hc hdec
      obtain ⟨hcp, hca, hcv⟩ := of_decide_eq_true hdec
      exact hnv ⟨c, hc, hcp, hca, hcv⟩

/-- Witness for `broadcast_excludes_verdict_holders`: bot 1 is a delivery
target of a post-referencing broadcast with no verdicts. -/
theorem broadcast_excludes_verdict_holders_witness :
    (∃ b ∈ [(⟨1, "A", true, some "https://a.example/hook"⟩ : BotRec)],
        b.id = 1 ∧ b.active = true ∧ ∃ u, b.webhook_url = some u ∧ u ≠ "") ∧
      some 1 ≠ (none : Option Nat) ∧ 1 ∉ ([] : List Nat) ∧
      ¬ ∃ c ∈ ([] : List CommentRec), c.post_id = 5 ∧
        c.author_bot_id = some 1 ∧ c.is_verdict = true :=
  (broadcast_excludes_verdict_holders
      [⟨1, "A", true, some "https://a.example/hook"⟩] none [] [] 5
      (by decide) 1).mp (by decide)

/-! ## Content lifecycle controller (`app/routers/bot_api.py`) -/

/-- A post row (`Post` model), restricted to the fields the engine reads. -/
structure PostRec where
  id : Nat
  channel_id : Nat
  author_bot_id : Option Nat
  title : String
  content : String
  created_at : Int
deriving DecidableEq, Repr

/-- A channel row; of its fields only the id is read by the modelled
endpoints (slug uniqueness belongs to channel creation, out of the claims'
scope). -/
structure ChannelRec where
  id : Nat
deriving DecidableEq, Repr

/-- A `MeetingScore` row, restricted to the fields `get_bot_meeting_limit`
reads. -/
structure ScoreRow where
  bot_id : Nat
  max_comments_next : Nat
  created_at : Int
deriving DecidableEq, Repr

/-- One entry of the in-memory `_webhook_status` map, restricted to the
field the quorum gate reads. -/
structure WebhookStat where
  bot_id : Nat
  consecutive_failures : Nat
deriving DecidableEq, Repr

/-- The database state read and written by the modelled endpoints. -/
structure Db where
  bots : List BotRec
  channels : List ChannelRec
  posts : List PostRec
  comments : List CommentRec
  meetingScores : List ScoreRow
  webhookStatus : List WebhookStat
deriving DecidableEq, Repr

/-- `MAX_BOT_COMMENTS_PER_POST` from `app/routers/bot_api.py`. -/
def MAX_BOT_COMMENTS_PER_POST : Nat := 20

/-- `MEETING_TIMEOUT_MINUTES` from `bot_create_comment`. -/
def MEETING_TIMEOUT_MINUTES : ℚ := 30

/-- `session.get(Post, post_id)`. -/
def findPost (db : Db) (pid : Nat) : Option PostRec :=
  db.posts.find? (fun p => p.id == pid)

/-- The bot display name (`bot.name if bot else "bot"`). -/
def findBotName (db : Db) (b : Nat) : String :=
  match db.bots.find? (fun x => x.id == b) with
  | some x => x.name
  | none => "bot"

/-- The global comment rate-limit count: comments by the bot across all
posts in the last hour. -/
def recentCommentCount (db : Db) (b : Nat) (now : Int) : Nat :=
  (db.comments.filter (fun c =>
    decide (c.author_bot_id = some b ∧ now - 3600 ≤ c.created_at))).length

/-- The comment duplicate probe: same post, same bot, identical body,
within the last 24 hours (`limit 1` on an unordered query: the first row
in table order of the model). -/
def findDupComment (db : Db) (b pid : Nat) (content : String) (now : Int) :
    Option CommentRec :=
  db.comments.find? (fun c =>
    decide (c.post_id = pid ∧ c.author_bot_id = some b ∧
      c.content = content ∧ now - 86400 ≤ c.created_at))

/-- Has the meeting moderator delivered a verdict on the post? -/
def moderatorVerdictExists (db : Db) (pid : Nat) : Bool :=
  botHasVerdict db.comments MEETING_MODERATOR_BOT_ID pid

/-- The bot's comment count on the post. -/
def botCommentCount (db : Db) (b pid : Nat) : Nat :=
  (db.comments.filter (fun c =>
    decide (c.post_id = pid ∧ c.author_bot_id = some b))).length

/-- The most recent `MeetingScore` row of a bot (`order_by created_at desc
limit 1`; ties are broken towards the earlier table row, the database
order being unspecified). -/
def latestScoreRow (db : Db) (b : Nat) : Option ScoreRow :=
  (db.meetingScores.filter (fun r => r.bot_id == b)).foldl
    (fun acc r =>
      match acc with
      | none => some r
      | some a => if a.created_at < r.created_at then some r else some a) none

/-- `get_bot_meeting_limit` from `app/services/meeting.py`: the
`max_comments_next` of the latest score row, defaulting to 5. -/
def get_bot_meeting_limit (db : Db) (b : Nat) : Nat :=
  match latestScoreRow db b with
  | some r => r.max_comments_next
  | none => DEFAULT_MAX_COMMENTS

/-- The quorum gate's `active_ids`: active bots other than the
moderator. -/
def activeOtherIds (db : Db) : List Nat :=
  (db.bots.filter (fun b =>
    b.active && decide (b.id ≠ MEETING_MODERATOR_BOT_ID))).map (fun b => b.id)

/-- A bot's consecutive webhook failure count (0 when never attempted). -/
def consecFailures (db : Db) (b : Nat) : Nat :=
  match db.webhookStatus.find? (fun w => w.bot_id == b) with
  | some w => w.consecutive_failures
  | none => 0

/-- Offline heuristic: at least 3 consecutive webhook failures. -/
def isOffline (db : Db) (b : Nat) : Bool :=
  decide (3 ≤ consecFailures db b)

/-- The quorum gate's `participated_ids`: distinct bot authors of comments
on the post, the moderator discarded. -/
def participatedIds (db : Db) (pid : Nat) : List Nat :=
  (firstDedup ((db.comments.filter (fun c =>
      decide (c.post_id = pid ∧ c.author_bot_id ≠ none))).filterMap
    (fun c => c.author_bot_id))).filter
      (fun i => decide (i ≠ MEETING_MODERATOR_BOT_ID))

/-- The quorum gate's `expected_ids`: active others minus offline bots. -/
def expectedIds (db : Db) : List Nat :=
  (activeOtherIds db).filter (fun i => ! isOffline db i)

/-- The quorum gate's `missing` set: expected bots that have not
commented. -/
def missingIds (db : Db) (pid : Nat) : List Nat :=
  (expectedIds db).filter (fun i => decide (i ∉ participatedIds db pid))

/-- Creation time of the post's first comment (smallest comment id),
`None` when the post has no comments. -/
def firstCommentTime (db : Db) (pid : Nat) : Option Int :=
  ((db.comments.filter (fun c => c.post_id == pid)).foldl
    (fun acc c =>
      match acc with
      | none => some c
      | some a => if c.id < a.id then some c else some a) none).map
    (fun c => c.created_at)

/-- The meeting's age in minutes at verdict time (0 without a first
comment). -/
def meetingAgeMinutes (db : Db) (pid : Nat) (now : Int) : ℚ :=
  match firstCommentTime db pid with
  | none => 0
  | some t => mkRat (now - t) 60

/-- Fresh comment id (autoincrement primary key). -/
def nextCommentId (db : Db) : Nat :=
  (db.comments.foldl (fun m c => max m c.id) 0) + 1

/-- The verdict marker prepended to a forced verdict body. -/
def verdictTag (name : String) : String :=
  "🏛️ **Verdict by " ++ name ++ ":**\n\n"

/-- The active comment budget: the dynamic meeting limit on the meeting
channel, 20 elsewhere. -/
def commentLimit (db : Db) (b : Nat) (post : PostRec) : Nat :=
  if post.channel_id = MEETING_CHANNEL_ID then get_bot_meeting_limit db b
  else MAX_BOT_COMMENTS_PER_POST

/-- The verdict auto-tag decision of `bot_create_comment`: the submission
is tagged `is_verdict` iff the post is in the meeting channel, this is the
last permitted comment under the budget, and the submitter is the
moderator. -/
def commentIsVerdict (db : Db) (botId pid : Nat) (post : PostRec) : Bool :=
  decide (post.channel_id = MEETING_CHANNEL_ID ∧
    botCommentCount db botId pid = commentLimit db botId post - 1 ∧
    botId = MEETING_MODERATOR_BOT_ID)

/-- The stored body: a forced verdict that does not already start with
"verdict" (case-insensitively) gets the verdict marker plus the display
name prepended. -/
def newCommentContent (db : Db) (botId : Nat) (content : String) (isV : Bool) :
    String :=
  if isV = true ∧ ¬ "verdict".data.isPrefixOf (lowerData content) = true then
    verdictTag (findBotName db botId) ++ content
  else content

/-- Outcome of `bot_create_comment`.  Soft outcomes (`rateLimited`,
`duplicate`) are 200-shaped structured responses; the errors carry their
HTTP status via `CommentResp.status`. -/
inductive CommentResp where
  | badRequest
  | postNotFound
  | rateLimited
  | duplicate (id : Nat)
  | meetingClosed
  | verdictLock
  | budgetExceeded
  | quorumWait (missing : List Nat)
  | created (id : Nat) (isVerdict : Bool) (number : Nat) (remaining : Nat)
deriving DecidableEq, Repr

/-- HTTP status of each outcome (soft outcomes are 200-shaped). -/
def CommentResp.status : CommentResp → Nat
  | badRequest => 400
  | postNotFound => 404
  | rateLimited => 200
  | duplicate _ => 200
  | meetingClosed => 403
  | verdictLock => 403
  | budgetExceeded => 403
  | quorumWait _ => 409
  | created _ _ _ _ => 200

/-- Result of `bot_create_comment`: the response and the comment table
after the call. -/
structure CommentOut where
  resp : CommentResp
  comments : List CommentRec
deriving DecidableEq, Repr

/-- `bot_create_comment` from `app/routers/bot_api.py` (request-validation
and persistence; the post-verdict scoring side effects are the separately
modelled `compute_meeting_scores`/`award_meeting_bonus`, and webhook
fan-out is the separately modelled `broadcastTargets`).  Order of checks
as in the source: payload truthiness (400), post lookup (404), global
hourly rate limit (soft), 24h duplicate probe (soft), meeting-closed
check (403), own-verdict lock (403), budget (403), verdict auto-tag and
body rewrite, moderator quorum gate (409), insert. -/
def bot_create_comment (db : Db) (botId pid : Nat) (content : String)
    (now : Int) : CommentOut :=
  if pid = 0 ∨ content = "" then ⟨.badRequest, db.comments⟩
  else
    match findPost db pid with
    | none => ⟨.postNotFound, db.comments⟩
    | some post =>
      if 5 ≤ recentCommentCount db botId now then ⟨.rateLimited, db.comments⟩
      else
        match findDupComment db botId pid content now with
        | some d => ⟨.duplicate d.id, db.comments⟩
        | none =>
          if post.channel_id = MEETING_CHANNEL_ID ∧
              moderatorVerdictExists db pid = true ∧
              botId ≠ MEETING_MODERATOR_BOT_ID then
            ⟨.meetingClosed, db.comments⟩
          else if botHasVerdict db.comments botId pid = true then
            ⟨.verdictLock, db.comments⟩
          else if commentLimit db botId post ≤ botCommentCount db botId pid then
            ⟨.budgetExceeded, db.comments⟩
          else if post.channel_id = MEETING_CHANNEL_ID ∧
              commentIsVerdict db botId pid post = true ∧
              botId = MEETING_MODERATOR_BOT_ID ∧
              missingIds db pid ≠ [] ∧
              meetingAgeMinutes db pid now < MEETING_TIMEOUT_MINUTES then
            ⟨.quorumWait (missingIds db pid), db.comments⟩
          else
            ⟨.created (nextCommentId db) (commentIsVerdict db botId pid post)
                (botCommentCount db botId pid + 1)
                (commentLimit db botId post - botCommentCount db botId pid - 1),
              db.comments ++ [⟨nextCommentId db, pid, some botId,
                newCommentContent db botId content (commentIsVerdict db botId pid post),
                commentIsVerdict db botId pid post, now⟩]⟩

/-- The post rate-limit count: posts by the bot in the last 6 hours. -/
def recentPostCount (db : Db) (b : Nat) (now : Int) : Nat :=
  (db.posts.filter (fun p =>
    decide (p.author_bot_id = some b ∧ now - 21600 ≤ p.created_at))).length

/-- The post duplicate probe: same bot, identical title, within the last
24 hours. -/
def findDupPost (db : Db) (b : Nat) (title : String) (now : Int) :
    Option PostRec :=
  db.posts.find? (fun p =>
    decide (p.author_bot_id = some b ∧ p.title = title ∧
      now - 86400 ≤ p.created_at))

/-- Fresh post id (autoincrement primary key). -/
def nextPostId (db : Db) : Nat :=
  (db.posts.foldl (fun m p => max m p.id) 0) + 1

/-- Outcome of `bot_create_post`. -/
inductive PostResp where
  | badRequest
  | channelNotFound
  | rateLimited
  | duplicate (id : Nat)
  | created (id : Nat)
deriving DecidableEq, Repr

/-- Result of `bot_create_post`: the response and the post table after the
call. -/
structure PostOut where
  resp : PostResp
  posts : List PostRec
deriving DecidableEq, Repr

/-- `bot_create_post` from `app/routers/bot_api.py` (request-validation
and persistence; scoring and fan-out side effects are modelled
separately): payload truthiness (400), channel lookup (404), 6-hour rate
limit (soft), 24h duplicate probe (soft), insert. -/
def bot_create_post (db : Db) (botId chId : Nat) (title content : String)
    (now : Int) : PostOut :=
  if chId = 0 ∨ title = "" ∨ content = "" then ⟨.badRequest, db.posts⟩
  else if (db.channels.find? (fun c => c.id == chId)).isNone then
    ⟨.channelNotFound, db.posts⟩
  else if 2 ≤ recentPostCount db botId now then ⟨.rateLimited, db.posts⟩
  else
    match findDupPost db botId title now with
    | some d => ⟨.duplicate d.id, db.posts⟩
    | none =>
      ⟨.created (nextPostId db),
        db.posts ++ [⟨nextPostId db, chId, some botId, title, content, now⟩]⟩

/-- Inversion of an accepted comment: every guard passed, the response
fields are the count-derived values, and exactly the new comment row
(with the auto-tag decision and possibly rewritten body) was appended. -/
theorem bot_create_comment_created_inversion
    (db : Db) (botId pid : Nat) (content : String) (now : Int)
    {i : Nat} {v : Bool} {n r : Nat}
    (hc : (bot_create_comment db botId pid content now).resp = .created i v n r) :
    pid ≠ 0 ∧ content ≠ "" ∧
      ∃ post, findPost db pid = some post ∧
        recentCommentCount db botId now < 5 ∧
        findDupComment db botId pid content now = none ∧
        botHasVerdict db.comments botId pid = false ∧
        botCommentCount db botId pid < commentLimit db botId post ∧
        i = nextCommentId db ∧
        v = commentIsVerdict db botId pid post ∧
        n = botCommentCount db botId pid + 1 ∧
        r = commentLimit db botId post - botCommentCount db botId pid - 1 ∧
        (bot_create_comment db botId pid content now).comments =
          db.comments ++ [⟨nextCommentId db, pid, some botId,
            newCommentContent db botId content v, v, now⟩] := by
  set out := bot_create_comment db botId pid content now with hE
  rw [bot_create_comment] at hE
  by_cases h0 : pid = 0 ∨ content = ""
  · rw [if_pos h0] at hE
    rw [hE] at hc
    simp at hc
  · rw [if_neg h0] at hE
    push_neg at h0
    cases hfp : findPost db pid with
    | none =>
      rw [hfp] at hE
      dsimp only at hE
      rw [hE] at hc
      simp at hc
    | some post =>
      rw [hfp] at hE
      dsimp only at hE
      by_cases hrate : 5 ≤ recentCommentCount db botId now
      · rw [if_pos hrate] at hE
        rw [hE] at hc
        simp at hc
      · rw [if_neg hrate] at hE
        cases hdup : findDupComment db botId pid content now with
        | some d =>
          rw [hdup] at hE
          dsimp only at hE
          rw [hE] at hc
          simp at hc
        | none =>
          rw [hdup] at hE
          dsimp only at hE
          by_cases hmc : post.channel_id = MEETING_CHANNEL_ID ∧
              moderatorVerdictExists db pid = true ∧
              botId ≠ MEETING_MODERATOR_BOT_ID
          · rw [if_pos hmc] at hE
            rw [hE] at hc
            simp at hc
          · rw [if_neg hmc] at hE
            by_cases hvl : botHasVerdict db.comments botId pid = true
            · rw [if_pos hvl] at hE
              rw [hE] at hc
              simp at hc
            · rw [if_neg hvl] at hE
              by_cases hbud : commentLimit db botId post ≤ botCommentCount db botId pid
              · rw [if_pos hbud] at hE
                rw [hE] at hc
                simp at hc
              · rw [if_neg hbud] at hE
                by_cases hq : post.channel_id = MEETING_CHANNEL_ID ∧
                    commentIsVerdict db botId pid post = true ∧
                    botId = MEETING_MODERATOR_BOT_ID ∧
                    missingIds db pid ≠ [] ∧
                    meetingAgeMinutes db pid now < MEETING_TIMEOUT_MINUTES
                · rw [if_pos hq] at hE
                  rw [hE] at hc
                  simp at hc
                · rw [if_neg hq] at hE
                  rw [hE] at hc
                  simp only [CommentResp.created.injEq] at hc
                  obtain ⟨hi, hv, hn, hr⟩ := hc
                  simp only [Bool.not_eq_true] at hvl
                  refine ⟨h0.1, h0.2, post, rfl, by omega, rfl, hvl, by omega,
                    hi.symm, hv.symm, hn.symm, hr.symm, ?_⟩
                  rw [hE]
                  dsimp only
                  rw [hv]

/-- Inversion of an accepted post: every guard passed and exactly the new
post row was appended. -/
theorem bot_create_post_created_inversion
    (db : Db) (botId chId : Nat) (title content : String) (now : Int)
    {i : Nat}
    (hc : (bot_create_post db botId chId title content now).resp = .created i) :
    chId ≠ 0 ∧ title ≠ "" ∧ content ≠ "" ∧
      ¬ (db.channels.find? (fun c => c.id == chId)).isNone ∧
      recentPostCount db botId now < 2 ∧
      findDupPost db botId title now = none ∧
      i = nextPostId db ∧
      (bot_create_post db botId chId title content now).posts =
        db.posts ++ [⟨nextPostId db, chId, some botId, title, content, now⟩] := by
  set out := bot_create_post db botId chId title content now with hE
  rw [bot_create_post] at hE
  by_cases h0 : chId = 0 ∨ title = "" ∨ content = ""
  · rw [if_pos h0] at hE
    rw [hE] at hc
    simp at hc
  · rw [if_neg h0] at hE
    push_neg at h0
    by_cases hch : (db.channels.find? (fun c => c.id == chId)).isNone
    · rw [if_pos hch] at hE
      rw [hE] at hc
      simp at hc
    · rw [if_neg hch] at hE
      by_cases hrate : 2 ≤ recentPostCount db botId now
      · rw [if_pos hrate] at hE
        rw [hE] at hc
        simp at hc
      · rw [if_neg hrate] at hE
        cases hdup : findDupPost db botId title now with
        | some d =>
          rw [hdup] at hE
          dsimp only at hE
          rw [hE] at hc
          simp at hc
        | none =>
          rw [hdup] at hE
          dsimp only at hE
          rw [hE] at hc
          simp only [PostResp.created.injEq] at hc
          refine ⟨h0.1, h0.2.1, h0.2.2, hch, by omega, rfl, hc.symm, ?_⟩
          rw [hE]

/-- State for the C1 counterexample: bot 7 has 19 old comments on the
ordinary post 1 (channel 1, budget 20). -/
def c1Db : Db :=
  { bots := [⟨7, "Nova", true, none⟩], channels := [⟨1⟩],
    posts := [⟨1, 1, some 9, "t", "b", 0⟩],
    comments := (List.range 19).map (fun i => ⟨i + 1, 1, some 7, "x", false, 0⟩),
    meetingScores := [], webhookStatus := [] }

set_option maxRecDepth 8000 in
/-- C1 counterexample: bot 7's 20th accepted comment on an ordinary post —
the Nth accepted comment with N = budget = 20 — is stored with
`is_verdict = false` and an unmodified body, so the auto-tagging is not
applied "for every agent and every post" as claimed: in the code it is
restricted to the meeting channel and the moderator bot. -/
theorem verdict_tagging_not_universal_counterexample :
    botCommentCount c1Db 7 1 + 1 = MAX_BOT_COMMENTS_PER_POST ∧
      (bot_create_comment c1Db 7 1 "final thoughts" 1000000).resp =
        CommentResp.created 20 false 20 0 ∧
      (bot_create_comment c1Db 7 1 "final thoughts" 1000000).comments =
        c1Db.comments ++ [⟨20, 1, some 7, "final thoughts", false, 1000000⟩] := by
  refine ⟨by decide, by decide, by decide⟩

/-- C1 amended: an accepted comment is stored with `is_verdict = true` iff
the post is in the meeting channel, the submission is the agent's last
permitted comment under its active budget, AND the agent is the meeting
moderator; in that case, when the body does not already start with
"verdict" (case-insensitively), the verdict marker plus the display name
is prepended — for all other agents and posts the comment is stored
untagged with its body unchanged. -/
theorem comment_verdict_tagging (db : Db) (botId pid : Nat) (content : String)
    (now : Int) (post : PostRec) (i : Nat) (v : Bool) (n r : Nat)
    (hp : findPost db pid = some post)
    (hc : (bot_create_comment db botId pid content now).resp = .created i v n r) :
    (v = true ↔ (post.channel_id = MEETING_CHANNEL_ID ∧
        botCommentCount db botId pid = commentLimit db botId post - 1 ∧
        botId = MEETING_MODERATOR_BOT_ID)) ∧
      (bot_create_comment db botId pid content now).comments =
        db.comments ++ [⟨nextCommentId db, pid, some botId,
          newCommentContent db botId content v, v, now⟩] := by
  obtain ⟨-, -, post', hp', -, -, -, -, -, hv, -, -, hcomm⟩ :=
    bot_create_comment_created_inversion db botId pid content now hc
  rw [hp] at hp'
  injection hp' with hpe
  subst hpe
  refine ⟨?_, hcomm⟩
  rw [hv, commentIsVerdict]
  simp

/-- State for the C1 witness: the moderator (bot 2) has 4 comments on the
meeting post (default budget 5) and no other active bot exists, so quorum
is trivially met. -/
def c1wDb : Db :=
  { bots := [⟨2, "Yilin", true, none⟩], channels := [⟨46⟩],
    posts := [⟨1, 46, some 2, "m", "t", 0⟩],
    comments := [⟨1, 1, some 2, "a", false, 0⟩, ⟨2, 1, some 2, "b", false, 0⟩,
                 ⟨3, 1, some 2, "c", false, 0⟩, ⟨4, 1, some 2, "d", false, 0⟩],
    meetingScores := [], webhookStatus := [] }

/-- Witness for `comment_verdict_tagging`: the moderator's 5th meeting
comment is stored as a verdict with the marker and display name
prepended. -/
theorem comment_verdict_tagging_witness :
    (bot_create_comment c1wDb 2 1 "I think so" 1000000).comments =
      c1wDb.comments ++ [⟨5, 1, some 2,
        verdictTag "Yilin" ++ "I think so", true, 1000000⟩] :=
  (comment_verdict_tagging c1wDb 2 1 "I think so" 1000000
    ⟨1, 46, some 2, "m", "t", 0⟩ 5 true 5 0 (by decide) (by decide)).2

/-- State for C2: bot 7 already delivered the verdict "done" on post 1
within the last day. -/
def c2Db : Db :=
  { bots := [⟨7, "Nova", true, none⟩], channels := [⟨1⟩],
    posts := [⟨1, 1, some 9, "t", "b", 0⟩],
    comments := [⟨1, 1, some 7, "done", true, 999000⟩],
    meetingScores := [], webhookStatus := [] }

/-- C2 counterexample: with a verdict already delivered, resubmitting the
identical body is answered by the duplicate-suppression soft path — a
200-shaped `duplicate` response, not a 403 error — because the duplicate
probe runs before the verdict-lock check.  (No comment is created either
way.) -/
theorem verdict_lock_soft_path_counterexample :
    botHasVerdict c2Db.comments 7 1 = true ∧
      (bot_create_comment c2Db 7 1 "done" 1000000).resp =
        CommentResp.duplicate 1 ∧
      (bot_create_comment c2Db 7 1 "done" 1000000).resp.status = 200 ∧
      (bot_create_comment c2Db 7 1 "done" 1000000).comments = c2Db.comments := by
  refine ⟨by decide, by decide, by decide, by decide⟩

/-- C2 amended: the verdict lock is absorbing in the sense that once agent
A holds an `is_verdict` comment on post P, no subsequent submission by A
on P ever creates a comment; every attempt is answered by the soft
rate-limit or duplicate path (200-shaped, no write) or fails hard with a
403 error (meeting-closed or verdict-lock), regardless of remaining
budget. -/
theorem verdict_lock_absorbing (db : Db) (botId pid : Nat) (content : String)
    (now : Int)
    (hpid : pid ≠ 0) (hcontent : content ≠ "")
    (hpost : (findPost db pid).isSome = true)
    (hv : botHasVerdict db.comments botId pid = true) :
    ((bot_create_comment db botId pid content now).comments = db.comments) ∧
      (∀ i w n r, (bot_create_comment db botId pid content now).resp ≠
        .created i w n r) ∧
      ((bot_create_comment db botId pid content now).resp = .rateLimited ∨
        (∃ d, (bot_create_comment db botId pid content now).resp = .duplicate d) ∨
        (bot_create_comment db botId pid content now).resp.status = 403) := by
  set out := bot_create_comment db botId pid content now with hE
  rw [bot_create_comment] at hE
  rw [if_neg (by push_neg; exact ⟨hpid, hcontent⟩)] at hE
  cases hfp : findPost db pid with
  | none => rw [hfp] at hpost; simp at hpost
  | some post =>
    rw [hfp] at hE
    dsimp only at hE
    by_cases hrate : 5 ≤ recentCommentCount db botId now
    · rw [if_pos hrate] at hE
      rw [hE]
      exact ⟨rfl, by simp, Or.inl rfl⟩
    · rw [if_neg hrate] at hE
      cases hdup : findDupComment db botId pid content now with
      | some d =>
        rw [hdup] at hE
        dsimp only at hE
        rw [hE]
        exact ⟨rfl, by simp, Or.inr (Or.inl ⟨d.id, rfl⟩)⟩
      | none =>
        rw [hdup] at hE
        dsimp only at hE
        by_cases hmc : post.channel_id = MEETING_CHANNEL_ID ∧
            moderatorVerdictExists db pid = true ∧
            botId ≠ MEETING_MODERATOR_BOT_ID
        · rw [if_pos hmc] at hE
          rw [hE]
          exact ⟨rfl, by simp, Or.inr (Or.inr rfl)⟩
        · rw [if_neg hmc, if_pos hv] at hE
          rw [hE]
          exact ⟨rfl, by simp, Or.inr (Or.inr rfl)⟩

/-- Witness for `verdict_lock_absorbing`: a fresh body after the verdict
is refused (403 verdict-lock) and nothing is written. -/
theorem verdict_lock_absorbing_witness :
    (bot_create_comment c2Db 7 1 "more thoughts" 1000000).comments =
        c2Db.comments ∧
      (bot_create_comment c2Db 7 1 "more thoughts" 1000000).resp.status = 403 :=
  ⟨(verdict_lock_absorbing c2Db 7 1 "more thoughts" 1000000
      (by decide) (by decide) (by decide) (by decide)).1, by decide⟩

/-- The quorum `missing` set is inhabited iff some active, non-offline,
non-moderator agent has not commented on the post. -/
theorem missingIds_ne_nil_iff (db : Db) (pid : Nat) :
    missingIds db pid ≠ [] ↔
      ∃ b ∈ db.bots, b.active = true ∧ b.id ≠ MEETING_MODERATOR_BOT_ID ∧
        consecFailures db b.id < 3 ∧ b.id ∉ participatedIds db pid := by
  constructor
  · intro hne
    obtain ⟨x, hx⟩ := List.exists_mem_of_ne_nil _ hne
    simp only [missingIds, expectedIds, activeOtherIds, List.mem_filter,
      List.mem_map, Bool.and_eq_true, decide_eq_true_eq, Bool.not_eq_true',
      isOffline, decide_eq_false_iff_not] at hx
    obtain ⟨⟨⟨b, ⟨hbmem, hact, hbne⟩, rfl⟩, hoff⟩, hpart⟩ := hx
    exact ⟨b, hbmem, hact, hbne, by omega, hpart⟩
  · rintro ⟨b, hbmem, hact, hbne, hfail, hpart⟩
    intro hnil
    have hx : b.id ∈ missingIds db pid := by
      simp only [missingIds, expectedIds, activeOtherIds, List.mem_filter,
        List.mem_map, Bool.and_eq_true, decide_eq_true_eq, Bool.not_eq_true',
        isOffline, decide_eq_false_iff_not]
      exact ⟨⟨⟨b, ⟨hbmem, hact, hbne⟩, rfl⟩, by omega⟩, hpart⟩
    rw [hnil] at hx
    cases hx

/-- C3: the moderator's verdict attempt (the last permitted comment of the
moderator on a meeting post, all earlier guards passing) is rejected with
409 exactly when some active, non-offline (fewer than 3 consecutive
webhook failures) non-moderator agent has not commented AND the time since
the post's first comment is under 30 minutes; otherwise the verdict
comment is accepted with `is_verdict = true`.  With a non-empty reachable
roster, zero participants and zero elapsed time the attempt is therefore
blocked. -/
theorem meeting_quorum_gate (db : Db) (pid : Nat) (content : String)
    (now : Int) (post : PostRec)
    (hpid : pid ≠ 0) (hcontent : content ≠ "")
    (hpost : findPost db pid = some post)
    (hmeet : post.channel_id = MEETING_CHANNEL_ID)
    (hrate : recentCommentCount db MEETING_MODERATOR_BOT_ID now < 5)
    (hdup : findDupComment db MEETING_MODERATOR_BOT_ID pid content now = none)
    (hverd : botHasVerdict db.comments MEETING_MODERATOR_BOT_ID pid = false)
    (hcnt : botCommentCount db MEETING_MODERATOR_BOT_ID pid + 1 =
      commentLimit db MEETING_MODERATOR_BOT_ID post) :
    ((bot_create_comment db MEETING_MODERATOR_BOT_ID pid content now).resp.status
        = 409 ↔
      ((∃ b ∈ db.bots, b.active = true ∧ b.id ≠ MEETING_MODERATOR_BOT_ID ∧
          consecFailures db b.id < 3 ∧ b.id ∉ participatedIds db pid) ∧
        meetingAgeMinutes db pid now < MEETING_TIMEOUT_MINUTES)) ∧
      (¬ ((∃ b ∈ db.bots, b.active = true ∧ b.id ≠ MEETING_MODERATOR_BOT_ID ∧
            consecFailures db b.id < 3 ∧ b.id ∉ participatedIds db pid) ∧
          meetingAgeMinutes db pid now < MEETING_TIMEOUT_MINUTES) →
        (bot_create_comment db MEETING_MODERATOR_BOT_ID pid content now).resp =
          .created (nextCommentId db) true
            (botCommentCount db MEETING_MODERATOR_BOT_ID pid + 1) 0) := by
  have hisV : commentIsVerdict db MEETING_MODERATOR_BOT_ID pid post = true :=
    decide_eq_true ⟨hmeet, by omega, rfl⟩
  set out := bot_create_comment db MEETING_MODERATOR_BOT_ID pid content now with hE
  rw [bot_create_comment] at hE
  rw [if_neg (by push_neg; exact ⟨hpid, hcontent⟩), hpost] at hE
  dsimp only at hE
  rw [if_neg (by omega), hdup] at hE
  dsimp only at hE
  rw [if_neg (by rintro ⟨-, -, hne⟩; exact hne rfl)] at hE
  rw [if_neg (by rw [hverd]; simp)] at hE
  rw [if_neg (by omega)] at hE
  by_cases hq : missingIds db pid ≠ [] ∧
      meetingAgeMinutes db pid now < MEETING_TIMEOUT_MINUTES
  · rw [if_pos ⟨hmeet, hisV, rfl, hq.1, hq.2⟩] at hE
    rw [hE]
    constructor
    · exact iff_of_true rfl ⟨(missingIds_ne_nil_iff db pid).mp hq.1, hq.2⟩
    · intro hnot
      exact absurd ⟨(missingIds_ne_nil_iff db pid).mp hq.1, hq.2⟩ hnot
  · rw [if_neg (by rintro ⟨-, -, -, hm, ha⟩; exact hq ⟨hm, ha⟩)] at hE
    rw [hE]
    have hr0 : commentLimit db MEETING_MODERATOR_BOT_ID post -
        botCommentCount db MEETING_MODERATOR_BOT_ID pid - 1 = 0 := by omega
    constructor
    · refine iff_of_false (by simp [CommentResp.status]) ?_
      rintro ⟨hex, ha⟩
      exact hq ⟨(missingIds_ne_nil_iff db pid).mpr hex, ha⟩
    · intro hnot
      dsimp only
      rw [hisV, hr0]

/-- State for the C3 witness: the moderator is about to post its 5th
meeting comment one minute after the first comment, while active bot 3 has
not commented. -/
def c3Db : Db :=
  { bots := [⟨2, "Yilin", true, none⟩, ⟨3, "Atlas", true, some "u"⟩],
    channels := [⟨46⟩],
    posts := [⟨1, 46, some 2, "meeting", "topic", 999900⟩],
    comments := [⟨1, 1, some 2, "a", false, 999940⟩,
                 ⟨2, 1, some 2, "b", false, 999950⟩,
                 ⟨3, 1, some 2, "c", false, 999960⟩,
                 ⟨4, 1, some 2, "d", false, 999970⟩],
    meetingScores := [], webhookStatus := [] }

/-- Witness for `meeting_quorum_gate`: with bot 3 reachable but silent and
the meeting one minute old, the verdict attempt is rejected with 409. -/
theorem meeting_quorum_gate_witness :
    (bot_create_comment c3Db 2 1 "final words" 1000000).resp.status = 409 :=
  (meeting_quorum_gate c3Db 1 "final words" 1000000
      ⟨1, 46, some 2, "meeting", "topic", 999900⟩
      (by decide) (by decide) (by decide) (by decide) (by decide) (by decide)
      (by decide) (by decide)).1.mpr
    ⟨⟨⟨3, "Atlas", true, some "u"⟩, by decide, by decide, by decide, by decide,
      by decide⟩, by decide⟩

/-- `find?` skips a prefix in which nothing matches. -/
theorem find?_append_of_none {α : Type} (p : α → Bool) {l1 : List α}
    (l2 : List α) (h : l1.find? p = none) :
    (l1 ++ l2).find? p = l2.find? p := by
  induction l1 with
  | nil => simp
  | cons a t ih =>
    by_cases hpa : p a = true
    · rw [List.find?_cons_of_pos _ hpa] at h
      cases h
    · rw [List.find?_cons_of_neg _ hpa] at h
      rw [List.cons_append, List.find?_cons_of_neg _ hpa]
      exact ih h

/-- C7 amended: duplicate suppression is idempotent provided the second
submission is under the global rate limit (the rate-limit check runs
before the duplicate probe and can pre-empt it) and, for comments, the
first submission was not verdict-transformed: an accepted submission
followed, within the 24-hour window, by an identical submission yields the
soft duplicate response carrying the id of the first record, stores
nothing new, and exactly one record exists from the pair. -/
theorem duplicate_suppression_idempotent :
    (∀ (db : Db) (botId chId : Nat) (title content : String)
        (now1 now2 : Int) (i : Nat),
      (bot_create_post db botId chId title content now1).resp = .created i →
      now1 ≤ now2 → now2 ≤ now1 + 86400 →
      recentPostCount
        { db with posts := (bot_create_post db botId chId title content now1).posts }
        botId now2 < 2 →
      ((bot_create_post
            { db with posts := (bot_create_post db botId chId title content now1).posts }
            botId chId title content now2).resp = .duplicate i ∧
        (bot_create_post
            { db with posts := (bot_create_post db botId chId title content now1).posts }
            botId chId title content now2).posts =
          (bot_create_post db botId chId title content now1).posts ∧
        (bot_create_post db botId chId title content now1).posts.length =
          db.posts.length + 1)) ∧
    (∀ (db : Db) (botId pid : Nat) (content : String)
        (now1 now2 : Int) (i n r : Nat),
      (bot_create_comment db botId pid content now1).resp = .created i false n r →
      now1 ≤ now2 → now2 ≤ now1 + 86400 →
      recentCommentCount
        { db with comments := (bot_create_comment db botId pid content now1).comments }
        botId now2 < 5 →
      ((bot_create_comment
            { db with comments := (bot_create_comment db botId pid content now1).comments }
            botId pid content now2).resp = .duplicate i ∧
        (bot_create_comment
            { db with comments := (bot_create_comment db botId pid content now1).comments }
            botId pid content now2).comments =
          (bot_create_comment db botId pid content now1).comments ∧
        (bot_create_comment db botId pid content now1).comments.length =
          db.comments.length + 1)) := by
  constructor
  · intro db botId chId title content now1 now2 i hc h12 h24 hrate2
    obtain ⟨hch0, ht0, hc0, hch, hrate1, hdup1, hi, hposts⟩ :=
      bot_create_post_created_inversion db botId chId title content now1 hc
    have hkey : bot_create_post
        { db with posts := (bot_create_post db botId chId title content now1).posts }
        botId chId title content now2 =
        ⟨.duplicate (nextPostId db),
          (bot_create_post db botId chId title content now1).posts⟩ := by
      rw [bot_create_post]
      rw [if_neg (by push_neg; exact ⟨hch0, ht0, hc0⟩)]
      rw [if_neg hch]
      rw [if_neg (by omega)]
      have hdup2 : findDupPost
          { db with posts := (bot_create_post db botId chId title content now1).posts }
          botId title now2 =
          some ⟨nextPostId db, chId, some botId, title, content, now1⟩ := by
        show ((bot_create_post db botId chId title content now1).posts).find? _ = _
        rw [hposts]
        rw [find?_append_of_none]
        · rw [List.find?_cons_of_pos]
          exact decide_eq_true ⟨rfl, rfl, show now2 - 86400 ≤ now1 by omega⟩
        · rw [List.find?_eq_none]
          intro p hp hpred
          obtain ⟨ha, ht, htime⟩ := of_decide_eq_true hpred
          have := List.find?_eq_none.mp hdup1 p hp
          exact this (decide_eq_true ⟨ha, ht, by omega⟩)
      rw [hdup2]
    refine ⟨?_, ?_, ?_⟩
    · rw [hkey, hi]
    · rw [hkey]
    · rw [hposts]
      simp
  · intro db botId pid content now1 now2 i n r hc h12 h24 hrate2
    obtain ⟨hpid, hcont, post, hfp, hrate1, hdup1, -, -, -, hv, -, -, hcomm⟩ :=
      bot_create_comment_created_inversion db botId pid content now1 hc
    obtain ⟨-, -, post', hfp', -, -, -, -, hi, -, -, -, -⟩ :=
      bot_create_comment_created_inversion db botId pid content now1 hc
    have hnewc : newCommentContent db botId content false = content := by
      rw [newCommentContent]
      simp
    rw [hnewc] at hcomm
    have hkey : bot_create_comment
        { db with comments := (bot_create_comment db botId pid content now1).comments }
        botId pid content now2 =
        ⟨.duplicate (nextCommentId db),
          (bot_create_comment db botId pid content now1).comments⟩ := by
      rw [bot_create_comment]
      rw [if_neg (by push_neg; exact ⟨hpid, hcont⟩)]
      have hfp1 : findPost
          { db with comments := (bot_create_comment db botId pid content now1).comments }
          pid = some post := hfp
      rw [hfp1]
      dsimp only
      rw [if_neg (by omega)]
      have hdup2 : findDupComment
          { db with comments := (bot_create_comment db botId pid content now1).comments }
          botId pid content now2 =
          some ⟨nextCommentId db, pid, some botId, content, false, now1⟩ := by
        show ((bot_create_comment db botId pid content now1).comments).find? _ = _
        rw [hcomm]
        rw [find?_append_of_none]
        · rw [List.find?_cons_of_pos]
          exact decide_eq_true ⟨rfl, rfl, rfl, show now2 - 86400 ≤ now1 by omega⟩
        · rw [List.find?_eq_none]
          intro c hcm hpred
          obtain ⟨hcp, hca, hcc, htime⟩ := of_decide_eq_true hpred
          have := List.find?_eq_none.mp hdup1 c hcm
          exact this (decide_eq_true ⟨hcp, hca, hcc, by omega⟩)
      rw [hdup2]
    refine ⟨?_, ?_, ?_⟩
    · rw [hkey, hi]
    · rw [hkey]
    · rw [hcomm]
      simp

/-- State for the C7 counterexample: bot 7 already has two posts in the
last 6 hours, one titled "Hello". -/
def c7Db : Db :=
  { bots := [⟨7, "Nova", true, none⟩], channels := [⟨1⟩],
    posts := [⟨1, 1, some 7, "Hello", "x", 999000⟩,
              ⟨2, 1, some 7, "Other", "y", 999100⟩],
    comments := [], meetingScores := [], webhookStatus := [] }

/-- C7 counterexample: a submission whose title matches the agent's own
post from the last 24 hours is answered with `rate_limited` (no id at
all), not with the duplicate response carrying the earlier id, because the
rate-limit check runs before the duplicate probe. -/
theorem duplicate_preempted_by_rate_limit_counterexample :
    (bot_create_post c7Db 7 1 "Hello" "z" 1000000).resp =
        PostResp.rateLimited ∧
      (∃ p ∈ c7Db.posts, p.author_bot_id = some 7 ∧ p.title = "Hello" ∧
        1000000 - 86400 ≤ p.created_at) ∧
      (bot_create_post c7Db 7 1 "Hello" "z" 1000000).posts = c7Db.posts := by
  refine ⟨by decide, ⟨⟨1, 1, some 7, "Hello", "x", 999000⟩, by decide, by decide,
    by decide, by decide⟩, by decide⟩

/-- State for the C7 witness: a fresh board with one channel and one
post. -/
def c7wDb : Db :=
  { bots := [⟨7, "Nova", true, none⟩], channels := [⟨1⟩],
    posts := [⟨1, 1, some 9, "t", "b", 0⟩],
    comments := [], meetingScores := [], webhookStatus := [] }

/-- Witness for `duplicate_suppression_idempotent`: both halves
instantiated — resubmitting the post title "Hi all" and the comment body
"hi there" within the window returns the first record's id. -/
theorem duplicate_suppression_idempotent_witness :
    ((bot_create_post
        { c7wDb with posts := (bot_create_post c7wDb 7 1 "Hi all" "w" 0).posts }
        7 1 "Hi all" "w" 100).resp = PostResp.duplicate 2) ∧
      ((bot_create_comment
          { c7wDb with comments := (bot_create_comment c7wDb 7 1 "hi there" 0).comments }
          7 1 "hi there" 100).resp = CommentResp.duplicate 1) :=
  ⟨(duplicate_suppression_idempotent.1 c7wDb 7 1 "Hi all" "w" 0 100 2
      (by decide) (by decide) (by decide) (by decide)).1,
    (duplicate_suppression_idempotent.2 c7wDb 7 1 "hi there" 0 100 1 1 19
      (by decide) (by decide) (by decide) (by decide)).1⟩
